import Mathlib

/-
  Verification development for the shodohflo ingestion and reconciliation core.

  The definitions below are shallow embeddings of:
    * src/app/database.py      -- the artifact data model and merge logic
    * src/agents/pcap_agent.py -- packet classification, the recency cache and
                                  the deferred store-write unit of work

  Modelling conventions:
    * IP addresses and names are canonical strings (ipaddress.ip_address parses
      and canonicalizes; all inputs considered here are already canonical, so
      parsing is the identity on them).  An ip_network is modelled by the list
      of the addresses it contains; membership is list membership.
    * Python sets of strings are modelled as Finset String where only
      membership matters, and as deduplicated lists with set-semantic union
      where the code later turns the set back into a list (the onames
      accumulator): Python set iteration order is unspecified, so any fixed
      enumeration of the set is a faithful model of list(s).
    * Machine state touched through object references (the Recent cache's
      bucket objects, artifact objects during merge) is modelled with an
      explicit store (List of values) addressed by Nat references, mirroring
      Python object identity; allocation appends to the store.
    * A merged artifact's metadata dict has exactly the keys in METADATA_TYPES;
      metadata_for reads it with dict.get(k, set()), i.e. absent keys read as
      the empty set, so the dict is modelled as a total map that is empty
      outside METADATA_TYPES.
-/

set_option autoImplicit false

/-- The four metadata keys appearing in ClientArtifact.METADATA_FOR. -/
inductive MType where
  | targets
  | clients
  | types
  | ports
deriving DecidableEq

/-- A metadata dict: one set of strings per metadata key (absent keys are
modelled as the empty set, matching dict.get(k, set()) in metadata_for). -/
structure MetaMap where
  mtargets : Finset String
  mclients : Finset String
  mtypes : Finset String
  mports : Finset String
deriving DecidableEq

namespace MetaMap

def empty : MetaMap := ⟨∅, ∅, ∅, ∅⟩

def get (m : MetaMap) : MType → Finset String
  | .targets => m.mtargets
  | .clients => m.mclients
  | .types => m.mtypes
  | .ports => m.mports

/-- merged[k].metadata[t] |= x, for one key t. -/
def unionAt (m : MetaMap) (t : MType) (x : Finset String) : MetaMap :=
  match t with
  | .targets => { m with mtargets := m.mtargets ∪ x }
  | .clients => { m with mclients := m.mclients ∪ x }
  | .types => { m with mtypes := m.mtypes ∪ x }
  | .ports => { m with mports := m.mports ∪ x }

end MetaMap

/-- str.split(sep) for a one-character separator, on the character list:
"a;b;".split at ';' gives ["a", "b", ""], "".split gives [""]. -/
def splitOnChar (c : Char) : List Char → List (List Char)
  | [] => [[]]
  | x :: xs =>
    match splitOnChar c xs with
    | [] => if x = c then [[], []] else [[x]]
    | y :: ys => if x = c then [] :: y :: ys else (x :: y) :: ys

/-- Python str.split(';') on a String. -/
def pySplit (c : Char) (s : String) : List String :=
  (splitOnChar c s.data).map (fun l => String.mk l)

/-- Whether target is None or self.client_address is in target
(ClientArtifact.is_targeted, database.py line 83). -/
def isTargeted (target : Option (List String)) (clientAddress : String) : Bool :=
  match target with
  | none => true
  | some net => decide (clientAddress ∈ net)

/-! ## Generic merge shape

All four merge implementations in database.py share one shape: pop the last
item off the input list, seed a dict keyed by the variant's identity string
with a copy of it, then fold the remaining items in original order into the
dict, and return the dict's values in insertion order.  We capture that shape
once, parameterized by the identity key, the seeding copy and the
per-item update, and instantiate it for each variant. -/

section MergeGen

variable {I A : Type}

/-- Association-list lookup used to model the `k in merged` test and
`merged[k]` access on the Python dict. -/
def alookup (k : String) : List (String × A) → Option A
  | [] => none
  | p :: ps => if p.1 = k then some p.2 else alookup k ps

/-- One iteration of the merge loop body: either seed a new dict entry with a
copy of the item, or update the existing entry for the item's identity. -/
def mergeStep (key : I → String) (seed : I → A) (upd : A → I → A)
    (assoc : List (String × A)) (item : I) : List (String × A) :=
  match alookup (key item) assoc with
  | none => assoc ++ [(key item, seed item)]
  | some _ => assoc.map fun p => if p.1 = key item then (p.1, upd p.2 item) else p

/-- The whole loop over a given processing order. -/
def mergeFold (key : I → String) (seed : I → A) (upd : A → I → A)
    (l : List I) : List (String × A) :=
  l.foldl (mergeStep key seed upd) []

/-- items.pop() removes the last element, so the loop processes the last item
first and then the remaining items in their original order. -/
def foldOrder (l : List I) : List I :=
  match l.reverse with
  | [] => []
  | x :: r => x :: r.reverse

/-- The common merge driver: none on the empty list (items.pop() would raise
IndexError), otherwise the dict values in insertion order. -/
def pyMerge (key : I → String) (seed : I → A) (upd : A → I → A)
    (items : List I) : Option (List A) :=
  if items.isEmpty then none
  else some ((mergeFold key seed upd (foldOrder items)).map Prod.snd)

end MergeGen

/-! ## NetflowArtifact (database.py lines 328-394) and the Recon subclasses -/

/-- The concrete class of a Netflow-family artifact (NetflowArtifact,
RSTArtifact, ICMPArtifact); type(self)() in copy preserves it. -/
inductive NFTag where
  | flow
  | rst
  | icmp
deriving DecidableEq

/-- str(type(self)).split("'")[1].split('.')[-1].replace('Artifact','') -/
def NFTag.typeName : NFTag → String
  | .flow => "Netflow"
  | .rst => "RST"
  | .icmp => "ICMP"

structure NetflowArtifact where
  client_address : String
  remote_address : String
  remote_port : String
  count : Int
  tag : NFTag
  /-- METADATA_TYPES as an instance attribute: set only by
  ReconArtifact.reversed; a fresh instance falls back to the class value. -/
  mdtypesOverride : Option (List MType)
  /-- The metadata dict; present only on copied/merged/reversed artifacts. -/
  metadata : Option MetaMap
deriving DecidableEq

namespace NetflowArtifact

/-- Class-level METADATA_TYPES = {'clients','types','ports'}. -/
def classMdtypes : List MType := [.clients, .types, .ports]

/-- Attribute lookup for METADATA_TYPES: instance attribute first, then the
class attribute. -/
def mdtypes (a : NetflowArtifact) : List MType :=
  a.mdtypesOverride.getD classMdtypes

/-- METADATA_FOR (database.py lines 23-28) for this family. -/
def metadataFOR (t : MType) (a : NetflowArtifact) : String :=
  match t with
  | .targets => a.client_address
  | .clients => a.client_address
  | .types => a.tag.typeName
  | .ports => a.remote_port

/-- metadata_for (database.py lines 64-75). -/
def metadata_for (a : NetflowArtifact) (t : MType) : Finset String :=
  match a.metadata with
  | some m => m.get t
  | none => if t ∈ a.mdtypes then {metadataFOR t a} else ∅

/-- The metadata dict built by copy: { t: self.metadata_for(t) for t in
self.METADATA_TYPES }. -/
def materialize (a : NetflowArtifact) : MetaMap :=
  a.mdtypes.foldl (fun m t => m.unionAt t (a.metadata_for t)) MetaMap.empty

/-- NetflowArtifact.copy (database.py lines 387-394): a fresh instance of the
same class with the same data fields and a materialized metadata dict. -/
def copy (a : NetflowArtifact) : NetflowArtifact :=
  { client_address := a.client_address
    remote_address := a.remote_address
    remote_port := a.remote_port
    count := a.count
    tag := a.tag
    mdtypesOverride := none
    metadata := some a.materialize }

/-- '{}+{}'.format(item.remote_address, item.remote_port) -/
def key (a : NetflowArtifact) : String :=
  a.remote_address ++ "+" ++ a.remote_port

/-- The already-present-key branch of the merge loop body
(database.py lines 380-384). -/
def mergeUpd (target : Option (List String)) (acc : NetflowArtifact)
    (item : NetflowArtifact) : NetflowArtifact :=
  let acc1 := if isTargeted target item.client_address then
    { acc with client_address := item.client_address } else acc
  let acc2 := { acc1 with count := acc1.count + item.count }
  let md := item.mdtypes.foldl (fun m t => m.unionAt t (item.metadata_for t))
    (acc2.metadata.getD MetaMap.empty)
  { acc2 with metadata := some md }

/-- NetflowArtifact.merge (database.py lines 365-385). -/
def merge (items : List NetflowArtifact) (target : Option (List String)) :
    Option (List NetflowArtifact) :=
  pyMerge key copy (mergeUpd target) items

end NetflowArtifact

/-- REVERSED_METADATA_TYPES = {'targets','types','ports'}. -/
def ReconArtifact.REVERSED_METADATA_TYPES : List MType := [.targets, .types, .ports]

/-- ReconArtifact.reversed (database.py lines 404-413): a new artifact of the
same class with client and remote swapped; its instance METADATA_TYPES is set
to REVERSED_METADATA_TYPES before the metadata dict is built from the new
object's own fields. -/
def ReconArtifact.reversed (a : NetflowArtifact) : NetflowArtifact :=
  let base : NetflowArtifact :=
    { client_address := a.remote_address
      remote_address := a.client_address
      remote_port := a.remote_port
      count := a.count
      tag := a.tag
      mdtypesOverride := some ReconArtifact.REVERSED_METADATA_TYPES
      metadata := none }
  let md := ReconArtifact.REVERSED_METADATA_TYPES.foldl
    (fun m t => m.unionAt t (base.metadata_for t)) MetaMap.empty
  { base with metadata := some md }

/-! ## NXDOMAINArtifact (database.py lines 256-326) -/

structure NXDOMAINArtifact where
  client_address : String
  oname : String
  count : Int
  metadata : Option MetaMap
deriving DecidableEq

namespace NXDOMAINArtifact

/-- METADATA_TYPES = {'clients','types'}. -/
def classMdtypes : List MType := [.clients, .types]

def metadataFOR (t : MType) (a : NXDOMAINArtifact) : String :=
  match t with
  | .targets => a.client_address
  | .clients => a.client_address
  | .types => "NXDOMAIN"
  | .ports => ""

def metadata_for (a : NXDOMAINArtifact) (t : MType) : Finset String :=
  match a.metadata with
  | some m => m.get t
  | none => if t ∈ classMdtypes then {metadataFOR t a} else ∅

def materialize (a : NXDOMAINArtifact) : MetaMap :=
  classMdtypes.foldl (fun m t => m.unionAt t (a.metadata_for t)) MetaMap.empty

/-- NXDOMAINArtifact.copy (database.py lines 320-326). -/
def copy (a : NXDOMAINArtifact) : NXDOMAINArtifact :=
  { client_address := a.client_address
    oname := a.oname
    count := a.count
    metadata := some a.materialize }

/-- Identity: k = item.oname. -/
def key (a : NXDOMAINArtifact) : String := a.oname

def mergeUpd (target : Option (List String)) (acc : NXDOMAINArtifact)
    (item : NXDOMAINArtifact) : NXDOMAINArtifact :=
  let acc1 := if isTargeted target item.client_address then
    { acc with client_address := item.client_address } else acc
  let acc2 := { acc1 with count := acc1.count + item.count }
  let md := classMdtypes.foldl (fun m t => m.unionAt t (item.metadata_for t))
    (acc2.metadata.getD MetaMap.empty)
  { acc2 with metadata := some md }

/-- NXDOMAINArtifact.merge (database.py lines 298-318). -/
def merge (items : List NXDOMAINArtifact) (target : Option (List String)) :
    Option (List NXDOMAINArtifact) :=
  pyMerge key copy (mergeUpd target) items

end NXDOMAINArtifact

/-! ## DNSArtifact (database.py lines 132-190) -/

structure DNSArtifact where
  client_address : String
  remote_address : String
  /-- The decoded onames value is a Python list. -/
  onames : List String
  metadata : Option MetaMap
deriving DecidableEq

/-- The state of a DNS dict entry during merge: copy(set) turns onames into a
set for accumulation, and the metadata dict is materialized. -/
structure DNSAcc where
  client_address : String
  remote_address : String
  /-- The Python set of onames, as a deduplicated list. -/
  onames : List String
  metadata : MetaMap
deriving DecidableEq

namespace DNSArtifact

/-- METADATA_TYPES = {'clients','types'}. -/
def classMdtypes : List MType := [.clients, .types]

def metadataFOR (t : MType) (a : DNSArtifact) : String :=
  match t with
  | .targets => a.client_address
  | .clients => a.client_address
  | .types => "DNS"
  | .ports => ""

def metadata_for (a : DNSArtifact) (t : MType) : Finset String :=
  match a.metadata with
  | some m => m.get t
  | none => if t ∈ classMdtypes then {metadataFOR t a} else ∅

def materialize (a : DNSArtifact) : MetaMap :=
  classMdtypes.foldl (fun m t => m.unionAt t (a.metadata_for t)) MetaMap.empty

/-- DNSArtifact.copy with onames_type=set (database.py lines 184-190). -/
def copySet (a : DNSArtifact) : DNSAcc :=
  { client_address := a.client_address
    remote_address := a.remote_address
    onames := a.onames.dedup
    metadata := a.materialize }

/-- Identity: k = str(item.remote_address). -/
def key (a : DNSArtifact) : String := a.remote_address

def mergeUpd (target : Option (List String)) (acc : DNSAcc)
    (item : DNSArtifact) : DNSAcc :=
  let acc1 := if isTargeted target item.client_address then
    { acc with client_address := item.client_address } else acc
  let acc2 := { acc1 with onames := acc1.onames ∪ item.onames }
  let md := classMdtypes.foldl (fun m t => m.unionAt t (item.metadata_for t))
    acc2.metadata
  { acc2 with metadata := md }

/-- onames_as_list (database.py lines 127-130): list(self.onames); set
iteration order is unspecified, so the accumulator's enumeration stands for
list(s). -/
def accToArtifact (acc : DNSAcc) : DNSArtifact :=
  { client_address := acc.client_address
    remote_address := acc.remote_address
    onames := acc.onames
    metadata := some acc.metadata }

/-- DNSArtifact.merge (database.py lines 162-182). -/
def merge (items : List DNSArtifact) (target : Option (List String)) :
    Option (List DNSArtifact) :=
  (pyMerge key copySet (mergeUpd target) items).map (List.map accToArtifact)

/-- DNSArtifact.extract_key_data and ListArtifact.extract_value_data composed
as done by ClientArtifact.init (database.py lines 30-35, 98-99, 142-145):
split the key on the delimiter, take fields 0 and 1 (none if the key is too
short, where Python would raise), and keep the value's nonempty fields. -/
def decode (k v : String) : Option DNSArtifact :=
  match pySplit ';' k with
  | c :: r :: _ =>
    some { client_address := c
           remote_address := r
           onames := (pySplit ';' v).filter (fun oname => decide (oname ≠ ""))
           metadata := none }
  | _ => none

end DNSArtifact

/-- The projection selector passed as origin_type; the code treats every value
other than 'address' as 'fqdn'. -/
inductive OriginType where
  | address
  | fqdn
deriving DecidableEq

/-- DNSArtifact.children (database.py lines 155-160). -/
def DNSArtifact.children (a : DNSArtifact) (origin : OriginType)
    (target : Option (List String)) : List (String × Bool) :=
  let targeted := isTargeted target a.client_address
  match origin with
  | .address => a.onames.map fun oname => (oname, targeted)
  | .fqdn => [(a.remote_address, targeted)]

/-! ## CNAMEArtifact (database.py lines 192-254) -/

structure CNAMEArtifact where
  client_address : String
  rname : String
  onames : List String
  metadata : Option MetaMap
deriving DecidableEq

structure CNAMEAcc where
  client_address : String
  rname : String
  /-- The Python set of onames, as a deduplicated list. -/
  onames : List String
  metadata : MetaMap
deriving DecidableEq

namespace CNAMEArtifact

def classMdtypes : List MType := [.clients, .types]

def metadataFOR (t : MType) (a : CNAMEArtifact) : String :=
  match t with
  | .targets => a.client_address
  | .clients => a.client_address
  | .types => "CNAME"
  | .ports => ""

def metadata_for (a : CNAMEArtifact) (t : MType) : Finset String :=
  match a.metadata with
  | some m => m.get t
  | none => if t ∈ classMdtypes then {metadataFOR t a} else ∅

def materialize (a : CNAMEArtifact) : MetaMap :=
  classMdtypes.foldl (fun m t => m.unionAt t (a.metadata_for t)) MetaMap.empty

/-- CNAMEArtifact.copy with onames_type=set (database.py lines 248-254). -/
def copySet (a : CNAMEArtifact) : CNAMEAcc :=
  { client_address := a.client_address
    rname := a.rname
    onames := a.onames.dedup
    metadata := a.materialize }

/-- Identity: k = item.rname. -/
def key (a : CNAMEArtifact) : String := a.rname

def mergeUpd (target : Option (List String)) (acc : CNAMEAcc)
    (item : CNAMEArtifact) : CNAMEAcc :=
  let acc1 := if isTargeted target item.client_address then
    { acc with client_address := item.client_address } else acc
  let acc2 := { acc1 with onames := acc1.onames ∪ item.onames }
  let md := classMdtypes.foldl (fun m t => m.unionAt t (item.metadata_for t))
    acc2.metadata
  { acc2 with metadata := md }

def accToArtifact (acc : CNAMEAcc) : CNAMEArtifact :=
  { client_address := acc.client_address
    rname := acc.rname
    onames := acc.onames
    metadata := some acc.metadata }

/-- CNAMEArtifact.merge (database.py lines 226-246). -/
def merge (items : List CNAMEArtifact) (target : Option (List String)) :
    Option (List CNAMEArtifact) :=
  (pyMerge key copySet (mergeUpd target) items).map (List.map accToArtifact)

end CNAMEArtifact

/-! ## pcap_agent.py: packet classification and flow keying -/

/-- A decoded network-layer frame as seen by Server.process_data: protocol
number, source/destination addresses (canonical strings via to_address and
str) and the transport-layer source/destination ports. -/
structure Frame where
  p : Nat
  src : String
  dst : String
  sport : Nat
  dport : Nat
deriving DecidableEq

/-- TCP_OR_UDP = set((socket.IPPROTO_TCP, socket.IPPROTO_UDP)) = {6, 17}. -/
def TCP_OR_UDP : List Nat := [6, 17]

/-- "{};{};{};flow".format(client, remote, remote_port) -/
def mkFlowKey (client remote : String) (remotePort : Nat) : String :=
  client ++ ";" ++ remote ++ ";" ++ toString remotePort ++ ";flow"

/-- The classification block of Server.process_data (pcap_agent.py lines
238-257): drop non-TCP/UDP frames; exactly one endpoint inside our network
becomes the client, the other endpoint and its port become the remote side;
frames with both or neither endpoint local are dropped. -/
def classifyKey (ourNetwork : List String) (pkt : Frame) :
    Option (String × String × Nat) :=
  if pkt.p ∈ TCP_OR_UDP then
    if pkt.src ∈ ourNetwork then
      if pkt.dst ∈ ourNetwork then none
      else some (pkt.src, pkt.dst, pkt.dport)
    else if pkt.dst ∈ ourNetwork then
      some (pkt.dst, pkt.src, pkt.sport)
    else none
  else none

/-- The flow key derived for a frame, when one is derived at all
(pcap_agent.py line 259). -/
def derivedFlowKey (ourNetwork : List String) (pkt : Frame) : Option String :=
  (classifyKey ourNetwork pkt).map fun t => mkFlowKey t.1 t.2.1 t.2.2

/-! ## pcap_agent.py: the Recent cache (lines 141-178)

Recent keeps a list of set objects; self.current aliases self.buckets[0], so
set objects are modelled by reference: the store is the list of live set
values and buckets / current / working_set hold indices into it.  Allocating
a fresh set (set()) appends to the store.  time.time() is an input of each
call. -/

structure RecentState where
  /-- The heap of set objects; a reference is an index into this list. -/
  store : List (Finset String)
  /-- self.buckets: references, newest first. -/
  buckets : List Nat
  /-- self.current: reference to the current bucket object. -/
  cur : Nat
  /-- self.working_set: reference to the working-set object. -/
  ws : Nat
  cycle : Int
  frequency : Nat
  lastTime : Int
  count : Nat
deriving DecidableEq

/-- Dereference a set object (out-of-range reads as the empty set; the
invariant keeps all live references in range). -/
def getSet (s : RecentState) (r : Nat) : Finset String :=
  s.store.getD r ∅

/-- Recent.init (pcap_agent.py lines 143-151): allocate one fresh set per
bucket (references 0..buckets-1), then the working_set (reference buckets);
current is the reference stored in buckets[0], i.e. 0. -/
def Recent.init (cycle : Int) (buckets frequency : Nat) (now : Int) :
    RecentState :=
  { store := List.replicate buckets ∅ ++ [∅]
    buckets := List.range buckets
    cur := 0
    ws := buckets
    cycle := cycle
    frequency := frequency
    lastTime := now
    count := 0 }

/-- Recent.check_frequency (pcap_agent.py lines 153-170).  On rotation:
drop the oldest bucket reference (list.pop removes the last element), build a
fresh working-set object as the union of the remaining buckets, allocate a
fresh empty current bucket, push its reference at the front, and record the
rotation time. -/
def checkFrequency (s : RecentState) (now : Int) : RecentState :=
  if s.count + 1 < s.frequency then { s with count := s.count + 1 }
  else if now - s.lastTime < s.cycle then { s with count := 0 }
  else
    let buckets1 := s.buckets.dropLast
    let wsVal := buckets1.foldl (fun acc r => acc ∪ getSet s r) ∅
    let wsRef := s.store.length
    let curRef := s.store.length + 1
    { s with
      count := 0
      lastTime := now
      store := s.store ++ [wsVal, ∅]
      ws := wsRef
      cur := curRef
      buckets := curRef :: buckets1 }

/-- Whether a call to seen at this state and time rotates the buckets. -/
def rotates (s : RecentState) (now : Int) : Bool :=
  decide (s.frequency ≤ s.count + 1) && decide (s.cycle ≤ now - s.lastTime)

/-- Recent.seen (pcap_agent.py lines 172-178): after the frequency check,
test membership in the working set; on a miss add the thing to the
working-set object and to the current bucket object. -/
def seen (s : RecentState) (thing : String) (now : Int) :
    RecentState × Bool :=
  let s1 := checkFrequency s now
  if thing ∈ getSet s1 s1.ws then (s1, true)
  else
    let s2 := { s1 with store := s1.store.set s1.ws (insert thing (getSet s1 s1.ws)) }
    let s3 := { s2 with store := s2.store.set s2.cur (insert thing (getSet s2 s2.cur)) }
    (s3, false)

/-! ## pcap_agent.py: the deferred store write (lines 199-214) and the
process_data gate (lines 260-266) -/

/-- One effect on the expiring store.  registerClient stands for
self.client_to_redis(client_address), provided by the external
RedisBaseHandler (shodohflo.redis_handler, outside this repository's core). -/
inductive StoreOp where
  | registerClient (client : String)
  | incr (k : String)
  | expire (k : String) (ttl : Int)
deriving DecidableEq

/-- TTL_GRACE: None when not configured, defaulted to 900 seconds
(pcap_agent.py lines 78, 83-84). -/
def TTL_GRACE : Int := 900

/-- RedisHandler.flow_to_redis (pcap_agent.py lines 199-214): the deferred
unit of work submitted for a new flow, as its ordered list of store effects. -/
def flowToRedis (clientAddress k : String) : List StoreOp :=
  [StoreOp.registerClient clientAddress, StoreOp.incr k,
   StoreOp.expire k TTL_GRACE]

/-- Server.process_data (pcap_agent.py lines 227-271) without the socket
read: classify the frame, form the flow key, consult the recency cache, and
submit (client, key) for the deferred write only when the key was not seen. -/
def processData (ourNetwork : List String) (rec : RecentState) (pkt : Frame)
    (now : Int) : RecentState × Option (String × String) :=
  match classifyKey ourNetwork pkt with
  | none => (rec, none)
  | some (client, remote, remotePort) =>
    let k := mkFlowKey client remote remotePort
    let res := seen rec k now
    if res.2 then (res.1, none) else (res.1, some (client, k))

/-! ## Generic lemmas about the merge shape -/

section MergeGenLemmas

variable {I A : Type} (key : I → String) (seed : I → A) (upd : A → I → A)

theorem alookup_append (k : String) (xs ys : List (String × A)) :
    alookup k (xs ++ ys) =
      match alookup k xs with
      | some a => some a
      | none => alookup k ys := by
  induction xs with
  | nil => simp [alookup]
  | cons p ps ih =>
    by_cases hp : p.1 = k <;> simp [alookup, hp, ih]

theorem alookup_map_update {I : Type} (k0 k : String) (f : A → I → A) (i : I)
    (xs : List (String × A)) :
    alookup k (xs.map fun p => if p.1 = k0 then (p.1, f p.2 i) else p) =
      if k = k0 then (alookup k xs).map (fun a => f a i) else alookup k xs := by
  induction xs with
  | nil => by_cases hk : k = k0 <;> simp [alookup, hk]
  | cons p ps ih =>
    simp only [List.map_cons]
    by_cases hp : p.1 = k0
    · by_cases hk : k = k0
      · subst hk
        simp [alookup, hp, ih]
      · have hpk : ¬ p.1 = k := by
          rw [hp]
          exact fun hc => hk hc.symm
        have hk2 : ¬ k0 = k := fun hc => hk hc.symm
        simp [alookup, hp, hpk, ih, hk, hk2]
    · by_cases hpk : p.1 = k
      · have hk : ¬ k = k0 := by
          rw [← hpk]
          exact hp
        simp [alookup, hp, hpk, hk]
      · simp [alookup, hp, hpk, ih]

theorem alookup_eq_none_iff (k : String) (xs : List (String × A)) :
    alookup k xs = none ↔ ∀ p ∈ xs, p.1 ≠ k := by
  induction xs with
  | nil => simp [alookup]
  | cons p ps ih =>
    by_cases hp : p.1 = k
    · constructor
      · intro h
        simp [alookup, hp] at h
      · intro h
        exact absurd hp (h p (List.mem_cons_self p ps))
    · have h1 : alookup k (p :: ps) = alookup k ps := by
        simp [alookup, hp]
      rw [h1, ih]
      constructor
      · intro h q hq
        rcases List.mem_cons.mp hq with rfl | hq2
        · exact hp
        · exact h q hq2
      · intro h q hq
        exact h q (List.mem_cons_of_mem _ hq)

theorem alookup_some_mem {k : String} {a : A} {xs : List (String × A)}
    (h : alookup k xs = some a) : (k, a) ∈ xs := by
  induction xs with
  | nil => simp [alookup] at h
  | cons p ps ih =>
    by_cases hp : p.1 = k
    · simp only [alookup, hp, if_pos] at h
      have hpa : p = (k, a) := by
        cases p with
        | mk x y =>
          simp only at hp
          injection h with h2
          simp only at h2
          rw [hp, h2]
      rw [← hpa]
      exact List.mem_cons_self p ps
    · simp only [alookup, hp, if_neg, if_false] at h
      exact List.mem_cons_of_mem _ (ih h)

theorem alookup_of_mem_nodup {k : String} {a : A} {xs : List (String × A)}
    (hnd : (xs.map Prod.fst).Nodup) (hmem : (k, a) ∈ xs) :
    alookup k xs = some a := by
  induction xs with
  | nil => simp at hmem
  | cons p ps ih =>
    simp only [List.map_cons, List.nodup_cons] at hnd
    rcases List.mem_cons.mp hmem with hq | hq
    · rw [← hq]
      simp [alookup]
    · have hk : k ∈ ps.map Prod.fst :=
        List.mem_map.mpr ⟨(k, a), hq, rfl⟩
      have hp : ¬ p.1 = k := fun hc => hnd.1 (hc ▸ hk)
      simp only [alookup, hp, if_neg, if_false]
      exact ih hnd.2 hq

theorem filter_key_of_nodup {xs : List (String × A)}
    (hnd : (xs.map Prod.fst).Nodup) (k : String) :
    xs.filter (fun q => decide (q.1 = k)) =
      match alookup k xs with
      | none => []
      | some a => [(k, a)] := by
  induction xs with
  | nil => simp [alookup]
  | cons p ps ih =>
    simp only [List.map_cons, List.nodup_cons] at hnd
    obtain ⟨x, y⟩ := p
    by_cases hp : x = k
    · subst hp
      simp only at hnd
      have hps : ps.filter (fun q => decide (q.1 = x)) = [] := by
        apply List.filter_eq_nil_iff.mpr
        intro q hq
        simp only [decide_eq_true_eq]
        intro hc
        exact hnd.1 (hc ▸ List.mem_map.mpr ⟨q, hq, rfl⟩)
      simp [List.filter_cons, alookup, hps]
    · simp only [List.filter_cons, alookup]
      simp only [decide_eq_true_eq]
      simp only [hp, if_false]
      exact ih hnd.2

theorem mergeFold_append_single (l : List I) (i : I) :
    mergeFold key seed upd (l ++ [i]) =
      mergeStep key seed upd (mergeFold key seed upd l) i := by
  simp [mergeFold, List.foldl_append]

theorem mergeStep_of_none {assoc : List (String × A)} {i : I}
    (h : alookup (key i) assoc = none) :
    mergeStep key seed upd assoc i = assoc ++ [(key i, seed i)] := by
  unfold mergeStep
  rw [h]

theorem mergeStep_of_some {assoc : List (String × A)} {i : I} {a : A}
    (h : alookup (key i) assoc = some a) :
    mergeStep key seed upd assoc i =
      assoc.map fun p => if p.1 = key i then (p.1, upd p.2 i) else p := by
  unfold mergeStep
  rw [h]

/-- The central characterization: the dict entry for identity k is the fold of
upd over the k-partition of the processed items, seeded with a copy of the
partition's first member. -/
theorem alookup_mergeFold (l : List I) (k : String) :
    alookup k (mergeFold key seed upd l) =
      match l.filter (fun i => decide (key i = k)) with
      | [] => none
      | h :: t => some (t.foldl upd (seed h)) := by
  induction l using List.reverseRecOn generalizing k with
  | nil => simp [mergeFold, alookup]
  | append_singleton xs i ih =>
    rw [mergeFold_append_single]
    cases halt : alookup (key i) (mergeFold key seed upd xs) with
    | none =>
      rw [mergeStep_of_none key seed upd halt]
      have hfi : xs.filter (fun j => decide (key j = key i)) = [] := by
        have hh := ih (key i)
        rw [halt] at hh
        cases hc : xs.filter (fun j => decide (key j = key i)) with
        | nil => rfl
        | cons h t => rw [hc] at hh; exact absurd hh.symm (by simp)
      rw [alookup_append]
      by_cases hk : key i = k
      · subst hk
        rw [halt]
        simp [alookup, List.filter_append, hfi]
      · rw [ih k]
        simp only [List.filter_append]
        have hone : [i].filter (fun j => decide (key j = k)) = [] := by
          simp [List.filter_cons, hk]
        rw [hone, List.append_nil]
        cases hc : xs.filter (fun j => decide (key j = k)) with
        | nil => simp [alookup, hk]
        | cons h t => simp
    | some a =>
      rw [mergeStep_of_some key seed upd halt]
      obtain ⟨h, t, hft, ha⟩ :
          ∃ h t, xs.filter (fun j => decide (key j = key i)) = h :: t ∧
            a = t.foldl upd (seed h) := by
        have hh := ih (key i)
        rw [halt] at hh
        cases hc : xs.filter (fun j => decide (key j = key i)) with
        | nil => rw [hc] at hh; exact absurd hh (by simp)
        | cons h t =>
          rw [hc] at hh
          refine ⟨h, t, rfl, ?_⟩
          injection hh.symm with hv
          exact hv.symm
      rw [alookup_map_update (key i) k upd i]
      by_cases hk : k = key i
      · subst hk
        simp only [if_pos rfl, Option.map_some]
        rw [List.filter_append, hft]
        have hone : [i].filter (fun j => decide (key j = key i)) = [i] := by
          simp
        rw [hone]
        simp [List.foldl_append]
        exact ⟨a, halt, by rw [ha]⟩
      · rw [ih k]
        simp only [List.filter_append]
        have hone : [i].filter (fun j => decide (key j = k)) = [] := by
          simp only [List.filter_cons, List.filter_nil]
          have : ¬ key i = k := fun hc => hk hc.symm
          simp [this]
        rw [hone, List.append_nil]
        simp [hk]

theorem keys_mergeFold_nodup (l : List I) :
    ((mergeFold key seed upd l).map Prod.fst).Nodup := by
  induction l using List.reverseRecOn with
  | nil => simp [mergeFold]
  | append_singleton xs i ih =>
    rw [mergeFold_append_single]
    cases halt : alookup (key i) (mergeFold key seed upd xs) with
    | none =>
      rw [mergeStep_of_none key seed upd halt]
      have hni := (alookup_eq_none_iff (key i)
        (mergeFold key seed upd xs)).mp halt
      simp only [List.map_append, List.map_cons, List.map_nil]
      refine List.Nodup.append ih (List.nodup_singleton _) ?_
      intro x hx hc
      simp only [List.mem_singleton] at hc
      obtain ⟨p, hp, hpx⟩ := List.mem_map.mp hx
      exact hni p hp (hpx.trans hc)
    | some a =>
      rw [mergeStep_of_some key seed upd halt]
      have hkeys : ((mergeFold key seed upd xs).map
          (fun p => if p.1 = key i then (p.1, upd p.2 i) else p)).map Prod.fst =
          (mergeFold key seed upd xs).map Prod.fst := by
        rw [List.map_map]
        apply List.map_congr_left
        intro p _
        by_cases hp : p.1 = key i <;> simp [hp]
      rw [hkeys]
      exact ih

end MergeGenLemmas

section MergeValueLemmas

variable {I A : Type} (key : I → String) (seed : I → A) (upd : A → I → A)

/-- foldOrder is a permutation of the input list (last element moved to the
front). -/
theorem foldOrder_perm (l : List I) : (foldOrder l).Perm l := by
  unfold foldOrder
  cases hr : l.reverse with
  | nil =>
    have : l = [] := by
      have := congrArg List.reverse hr
      simpa using this
    simp [this]
  | cons x r =>
    have hl : l = r.reverse ++ [x] := by
      have := congrArg List.reverse hr
      simpa using this
    rw [hl]
    exact (List.perm_append_singleton x r.reverse).symm

/-- Every value ever put in the dict keeps the key it is filed under, provided
the copy has the item's key and the update preserves the key. -/
theorem mergeFold_wellKeyed (keyA : A → String)
    (hseed : ∀ i, keyA (seed i) = key i)
    (hupd : ∀ a i, keyA (upd a i) = keyA a) :
    ∀ l : List I, ∀ q ∈ mergeFold key seed upd l, keyA q.2 = q.1 := by
  intro l
  induction l using List.reverseRecOn with
  | nil => simp [mergeFold]
  | append_singleton xs i ih =>
    rw [mergeFold_append_single]
    cases halt : alookup (key i) (mergeFold key seed upd xs) with
    | none =>
      rw [mergeStep_of_none key seed upd halt]
      intro q hq
      rcases List.mem_append.mp hq with hq1 | hq1
      · exact ih q hq1
      · simp only [List.mem_singleton] at hq1
        rw [hq1]
        exact hseed i
    | some a =>
      rw [mergeStep_of_some key seed upd halt]
      intro q hq
      obtain ⟨p, hp, hpq⟩ := List.mem_map.mp hq
      by_cases hc : p.1 = key i
      · rw [if_pos hc] at hpq
        rw [← hpq]
        simp only
        rw [hupd p.2 i]
        exact ih p hp
      · rw [if_neg hc] at hpq
        rw [← hpq]
        exact ih p hp

/-- Filtering the values of the merged dict by a well-kept key yields the
single fold value for that key, or nothing. -/
theorem values_filter_key (keyA : A → String)
    (hseed : ∀ i, keyA (seed i) = key i)
    (hupd : ∀ a i, keyA (upd a i) = keyA a)
    (l : List I) (k : String) :
    ((mergeFold key seed upd l).map Prod.snd).filter
        (fun a => decide (keyA a = k)) =
      match l.filter (fun i => decide (key i = k)) with
      | [] => []
      | h :: t => [t.foldl upd (seed h)] := by
  have hmapfilter :
      ((mergeFold key seed upd l).map Prod.snd).filter
          (fun a => decide (keyA a = k)) =
        ((mergeFold key seed upd l).filter
          (fun q => decide (keyA q.2 = k))).map Prod.snd := by
    induction mergeFold key seed upd l with
    | nil => simp
    | cons q qs ih =>
      by_cases hq : keyA q.2 = k <;>
        simp [List.filter_cons, hq, ih]
  rw [hmapfilter]
  have hcong : (mergeFold key seed upd l).filter
      (fun q => decide (keyA q.2 = k)) =
      (mergeFold key seed upd l).filter (fun q => decide (q.1 = k)) := by
    apply List.filter_congr
    intro q hq
    rw [mergeFold_wellKeyed key seed upd keyA hseed hupd l q hq]
  rw [hcong]
  rw [filter_key_of_nodup (keys_mergeFold_nodup key seed upd l) k]
  rw [alookup_mergeFold]
  cases hf : l.filter (fun i => decide (key i = k)) <;> simp

/-- Membership in the merge output characterized through alookup. -/
theorem mem_values_mergeFold (l : List I) (a : A) :
    a ∈ (mergeFold key seed upd l).map Prod.snd ↔
      ∃ k, alookup k (mergeFold key seed upd l) = some a := by
  constructor
  · intro h
    obtain ⟨p, hp, hpa⟩ := List.mem_map.mp h
    refine ⟨p.1, ?_⟩
    rw [← hpa]
    exact alookup_of_mem_nodup (keys_mergeFold_nodup key seed upd l)
      (by rw [← Prod.mk.eta (p := p)] at hp; exact hp)
  · rintro ⟨k, hk⟩
    exact List.mem_map.mpr ⟨(k, a), alookup_some_mem hk, rfl⟩

/-- A projection preserved by the update is preserved by the whole fold. -/
theorem foldl_proj_const {β : Type} (f : A → β)
    (hupd : ∀ a i, f (upd a i) = f a) (x : A) (t : List I) :
    f (t.foldl upd x) = f x := by
  induction t generalizing x with
  | nil => rfl
  | cons i t ih =>
    rw [List.foldl_cons, ih (upd x i), hupd]

/-- A counter-like projection accumulates the per-item contributions. -/
theorem foldl_proj_sum (f : A → Int) (g : I → Int)
    (hupd : ∀ a i, f (upd a i) = f a + g i) (x : A) (t : List I) :
    f (t.foldl upd x) = f x + (t.map g).sum := by
  induction t generalizing x with
  | nil => simp
  | cons i t ih =>
    rw [List.foldl_cons, ih (upd x i), hupd]
    simp [add_assoc]

/-- A set-like projection accumulates the per-item unions. -/
theorem foldl_proj_union (f : A → Finset String) (g : I → Finset String)
    (hupd : ∀ a i, f (upd a i) = f a ∪ g i) (x : A) (t : List I) :
    f (t.foldl upd x) = t.foldl (fun s i => s ∪ g i) (f x) := by
  induction t generalizing x with
  | nil => rfl
  | cons i t ih =>
    rw [List.foldl_cons, ih (upd x i), hupd, List.foldl_cons]

/-- The client-address projection keeps the value of the last item passing the
filter, falling back to the seed value. -/
theorem foldl_proj_lastMatch (f : A → String) (p : I → Bool) (c : I → String)
    (hupd : ∀ a i, f (upd a i) = if p i then c i else f a) (x : A) (t : List I) :
    f (t.foldl upd x) =
      match (t.filter p).getLast? with
      | some i => c i
      | none => f x := by
  induction t using List.reverseRecOn with
  | nil => simp
  | append_singleton s i ih =>
    rw [List.foldl_append, List.foldl_cons, List.foldl_nil, hupd]
    by_cases hp : p i
    · simp [List.filter_append, hp, List.getLast?_append]
    · simp [List.filter_append, hp, ih]

end MergeValueLemmas

section MoreGenLemmas

variable {I A : Type} (key : I → String) (seed : I → A) (upd : A → I → A)

theorem List_filter_map_comm {α β : Type} (f : α → β) (p : β → Bool)
    (l : List α) :
    (l.map f).filter p = (l.filter fun x => p (f x)).map f := by
  induction l with
  | nil => simp
  | cons x xs ih =>
    by_cases hx : p (f x) <;> simp [List.filter_cons, hx, ih]

theorem mem_foldl_union {α : Type} (g : α → Finset String) (l : List α)
    (b : Finset String) (x : String) :
    x ∈ l.foldl (fun s a => s ∪ g a) b ↔ x ∈ b ∨ ∃ a ∈ l, x ∈ g a := by
  induction l generalizing b with
  | nil => simp
  | cons a l ih =>
    rw [List.foldl_cons, ih]
    simp [Finset.mem_union, or_assoc]

theorem foldl_union_perm {α : Type} (g : α → Finset String) {l1 l2 : List α}
    (h : l1.Perm l2) (b : Finset String) :
    l1.foldl (fun s a => s ∪ g a) b = l2.foldl (fun s a => s ∪ g a) b := by
  apply Finset.ext
  intro x
  rw [mem_foldl_union, mem_foldl_union]
  constructor
  · rintro (hb | ⟨a, ha, hx⟩)
    · exact Or.inl hb
    · exact Or.inr ⟨a, h.mem_iff.mp ha, hx⟩
  · rintro (hb | ⟨a, ha, hx⟩)
    · exact Or.inl hb
    · exact Or.inr ⟨a, h.mem_iff.mpr ha, hx⟩

theorem values_map_keyA (keyA : A → String)
    (hseed : ∀ i, keyA (seed i) = key i)
    (hupd : ∀ a i, keyA (upd a i) = keyA a) (l : List I) :
    ((mergeFold key seed upd l).map Prod.snd).map keyA =
      (mergeFold key seed upd l).map Prod.fst := by
  rw [List.map_map]
  apply List.map_congr_left
  intro q hq
  exact mergeFold_wellKeyed key seed upd keyA hseed hupd l q hq

theorem mem_keys_mergeFold_iff (l : List I) (k : String) :
    k ∈ (mergeFold key seed upd l).map Prod.fst ↔ ∃ i ∈ l, key i = k := by
  constructor
  · intro hk
    obtain ⟨p, hp, hpk⟩ := List.mem_map.mp hk
    have hne : alookup k (mergeFold key seed upd l) ≠ none := by
      intro hnone
      exact (alookup_eq_none_iff k _).mp hnone p hp hpk
    rw [alookup_mergeFold] at hne
    cases hf : l.filter (fun i => decide (key i = k)) with
    | nil => rw [hf] at hne; exact absurd rfl hne
    | cons h0 t =>
      have hmem : h0 ∈ l.filter (fun i => decide (key i = k)) :=
        hf ▸ List.mem_cons_self h0 t
      refine ⟨h0, List.mem_of_mem_filter hmem, ?_⟩
      have := List.of_mem_filter hmem
      simpa using this
  · rintro ⟨i, hi, hik⟩
    cases hf : l.filter (fun j => decide (key j = k)) with
    | nil =>
      have := List.filter_eq_nil_iff.mp hf i hi
      simp [hik] at this
    | cons h0 t =>
      have ha : alookup k (mergeFold key seed upd l) =
          some (t.foldl upd (seed h0)) := by
        rw [alookup_mergeFold, hf]
      exact List.mem_map.mpr ⟨(k, _), alookup_some_mem ha, rfl⟩

end MoreGenLemmas

/-! ## NetflowArtifact merge characterization -/

namespace NetflowArtifact

theorem nfKey_copy (a : NetflowArtifact) : key (copy a) = key a := rfl

theorem count_copy (a : NetflowArtifact) : (copy a).count = a.count := rfl

theorem client_copy (a : NetflowArtifact) :
    (copy a).client_address = a.client_address := rfl

theorem nfKey_mergeUpd (target : Option (List String)) (a i : NetflowArtifact) :
    key (mergeUpd target a i) = key a := by
  by_cases h : isTargeted target i.client_address <;> simp [mergeUpd, key, h]

theorem count_mergeUpd (target : Option (List String)) (a i : NetflowArtifact) :
    (mergeUpd target a i).count = a.count + i.count := by
  by_cases h : isTargeted target i.client_address <;> simp [mergeUpd, h]

theorem client_mergeUpd (target : Option (List String)) (a i : NetflowArtifact) :
    (mergeUpd target a i).client_address =
      if isTargeted target i.client_address then i.client_address
      else a.client_address := by
  by_cases h : isTargeted target i.client_address <;> simp [mergeUpd, h]

/-- The total count attributed to identity k in a list of artifacts. -/
def countFor (k : String) (l : List NetflowArtifact) : Int :=
  ((l.filter fun a => decide (key a = k)).map count).sum

/-- The set of identity values present in a list of artifacts. -/
def idSet (l : List NetflowArtifact) : Finset String :=
  (l.map key).toFinset

theorem countFor_perm {l1 l2 : List NetflowArtifact} (h : l1.Perm l2)
    (k : String) : countFor k l1 = countFor k l2 :=
  List.Perm.sum_eq ((h.filter _).map _)

theorem nf_merge_some_eq {items : List NetflowArtifact}
    {target : Option (List String)} {r : List NetflowArtifact}
    (h : merge items target = some r) :
    r = (mergeFold key copy (mergeUpd target) (foldOrder items)).map Prod.snd
      ∧ items ≠ [] := by
  unfold merge pyMerge at h
  split at h
  · exact absurd h (by simp)
  · rename_i hemp
    constructor
    · injection h with h2
      exact h2.symm
    · intro hc
      exact hemp (by simp [hc])

/-- Merged counts are the per-identity sums over the inputs. -/
theorem countFor_merge {items : List NetflowArtifact}
    {target : Option (List String)} {r : List NetflowArtifact}
    (h : merge items target = some r) (k : String) :
    countFor k r = countFor k items := by
  obtain ⟨hr, -⟩ := nf_merge_some_eq h
  subst hr
  have hvf := values_filter_key key copy (mergeUpd target) key
    (fun i => rfl) (nfKey_mergeUpd target) (foldOrder items) k
  have hperm := (foldOrder_perm items).filter (fun i => decide (key i = k))
  unfold countFor
  rw [hvf]
  cases hf : (foldOrder items).filter (fun i => decide (key i = k)) with
  | nil =>
    rw [hf] at hperm
    have hnil : items.filter (fun i => decide (key i = k)) = [] :=
      (hperm.symm).eq_nil
    rw [hnil]
  | cons h0 t =>
    rw [hf] at hperm
    have hsum : ((items.filter fun i => decide (key i = k)).map count).sum =
        ((h0 :: t).map count).sum :=
      List.Perm.sum_eq ((hperm.symm).map count)
    rw [hsum]
    have hcount : (t.foldl (mergeUpd target) (copy h0)).count =
        (copy h0).count + (t.map count).sum :=
      foldl_proj_sum (mergeUpd target) count count (count_mergeUpd target)
        (copy h0) t
    simp [hcount, count_copy]

/-- Merged identity sets are exactly the input identity sets. -/
theorem nf_idSet_merge {items : List NetflowArtifact}
    {target : Option (List String)} {r : List NetflowArtifact}
    (h : merge items target = some r) : idSet r = idSet items := by
  obtain ⟨hr, -⟩ := nf_merge_some_eq h
  subst hr
  unfold idSet
  apply Finset.ext
  intro k
  rw [List.mem_toFinset, List.mem_toFinset]
  rw [values_map_keyA key copy (mergeUpd target) key (fun i => rfl)
    (nfKey_mergeUpd target)]
  rw [mem_keys_mergeFold_iff]
  constructor
  · rintro ⟨i, hi, hik⟩
    exact List.mem_map.mpr ⟨i, (foldOrder_perm items).mem_iff.mp hi, hik⟩
  · intro hk
    obtain ⟨i, hi, hik⟩ := List.mem_map.mp hk
    exact ⟨i, (foldOrder_perm items).mem_iff.mpr hi, hik⟩

/-- The identities of the merge output are pairwise distinct. -/
theorem nf_idList_merge_nodup {items : List NetflowArtifact}
    {target : Option (List String)} {r : List NetflowArtifact}
    (h : merge items target = some r) : (r.map key).Nodup := by
  obtain ⟨hr, -⟩ := nf_merge_some_eq h
  subst hr
  rw [values_map_keyA key copy (mergeUpd target) key (fun i => rfl)
    (nfKey_mergeUpd target)]
  exact keys_mergeFold_nodup key copy (mergeUpd target) (foldOrder items)

end NetflowArtifact

/-! ## DNSArtifact merge characterization -/

/-- The dict key a DNS accumulator is filed under. -/
def DNSAcc.key (acc : DNSAcc) : String := acc.remote_address

namespace DNSArtifact

theorem accKey_copySet (a : DNSArtifact) : DNSAcc.key (copySet a) = key a := rfl

theorem dnsAccKey_mergeUpd (target : Option (List String)) (a : DNSAcc)
    (i : DNSArtifact) : DNSAcc.key (mergeUpd target a i) = DNSAcc.key a := by
  by_cases h : isTargeted target i.client_address <;>
    simp [mergeUpd, DNSAcc.key, h]

theorem onames_copySet (a : DNSArtifact) :
    (copySet a).onames.toFinset = a.onames.toFinset := by
  apply Finset.ext
  intro x
  simp [copySet, List.mem_toFinset, List.mem_dedup]

theorem onames_mergeUpd (target : Option (List String)) (a : DNSAcc)
    (i : DNSArtifact) :
    (mergeUpd target a i).onames.toFinset =
      a.onames.toFinset ∪ i.onames.toFinset := by
  by_cases h : isTargeted target i.client_address <;>
    simp [mergeUpd, h, List.toFinset_union]

theorem key_accToArtifact (acc : DNSAcc) :
    key (accToArtifact acc) = DNSAcc.key acc := rfl

theorem onames_toFinset_accToArtifact (acc : DNSAcc) :
    (accToArtifact acc).onames.toFinset = acc.onames.toFinset := rfl

/-- The union of onames attributed to identity k in a list of artifacts. -/
def onamesFor (k : String) (l : List DNSArtifact) : Finset String :=
  (l.filter fun a => decide (key a = k)).foldl
    (fun s a => s ∪ a.onames.toFinset) ∅

/-- The set of identity values present in a list of artifacts. -/
def idSet (l : List DNSArtifact) : Finset String :=
  (l.map key).toFinset

theorem onamesFor_perm {l1 l2 : List DNSArtifact} (h : l1.Perm l2)
    (k : String) : onamesFor k l1 = onamesFor k l2 :=
  foldl_union_perm _ (h.filter _) ∅

theorem dns_merge_some_eq {items : List DNSArtifact}
    {target : Option (List String)} {r : List DNSArtifact}
    (h : merge items target = some r) :
    r = ((mergeFold key copySet (mergeUpd target)
          (foldOrder items)).map Prod.snd).map accToArtifact
      ∧ items ≠ [] := by
  unfold merge pyMerge at h
  split at h
  · exact absurd h (by simp)
  · rename_i hemp
    constructor
    · have h3 : some (((mergeFold key copySet (mergeUpd target)
          (foldOrder items)).map Prod.snd).map accToArtifact) = some r := h
      injection h3 with h2
      exact h2.symm
    · intro hc
      exact hemp (by simp [hc])

/-- Merged oname sets are the per-identity unions over the inputs. -/
theorem onamesFor_merge {items : List DNSArtifact}
    {target : Option (List String)} {r : List DNSArtifact}
    (h : merge items target = some r) (k : String) :
    onamesFor k r = onamesFor k items := by
  obtain ⟨hr, -⟩ := dns_merge_some_eq h
  subst hr
  unfold onamesFor
  rw [List_filter_map_comm]
  have hpred : (fun acc : DNSAcc => decide (key (accToArtifact acc) = k)) =
      fun acc : DNSAcc => decide (DNSAcc.key acc = k) := rfl
  rw [hpred]
  rw [values_filter_key key copySet (mergeUpd target) DNSAcc.key
    (fun i => rfl) (dnsAccKey_mergeUpd target) (foldOrder items) k]
  have hperm := (foldOrder_perm items).filter (fun i => decide (key i = k))
  cases hf : (foldOrder items).filter (fun i => decide (key i = k)) with
  | nil =>
    rw [hf] at hperm
    rw [(hperm.symm).eq_nil]
    rfl
  | cons h0 t =>
    rw [hf] at hperm
    rw [foldl_union_perm (fun a : DNSArtifact => a.onames.toFinset)
      hperm.symm ∅]
    have honames := foldl_proj_union (mergeUpd target)
      (fun acc : DNSAcc => acc.onames.toFinset)
      (fun i : DNSArtifact => i.onames.toFinset) (onames_mergeUpd target)
      (copySet h0) t
    rw [onames_copySet] at honames
    simp [onames_toFinset_accToArtifact, honames]

/-- Merged identity sets are exactly the input identity sets. -/
theorem dns_idSet_merge {items : List DNSArtifact}
    {target : Option (List String)} {r : List DNSArtifact}
    (h : merge items target = some r) : idSet r = idSet items := by
  obtain ⟨hr, -⟩ := dns_merge_some_eq h
  subst hr
  unfold idSet
  apply Finset.ext
  intro k
  rw [List.mem_toFinset, List.mem_toFinset]
  rw [List.map_map]
  have hcomp : (key ∘ accToArtifact) = DNSAcc.key := rfl
  rw [hcomp]
  rw [values_map_keyA key copySet (mergeUpd target) DNSAcc.key (fun i => rfl)
    (dnsAccKey_mergeUpd target)]
  rw [mem_keys_mergeFold_iff]
  constructor
  · rintro ⟨i, hi, hik⟩
    exact List.mem_map.mpr ⟨i, (foldOrder_perm items).mem_iff.mp hi, hik⟩
  · intro hk
    obtain ⟨i, hi, hik⟩ := List.mem_map.mp hk
    exact ⟨i, (foldOrder_perm items).mem_iff.mpr hi, hik⟩

/-- The identities of the merge output are pairwise distinct. -/
theorem dns_idList_merge_nodup {items : List DNSArtifact}
    {target : Option (List String)} {r : List DNSArtifact}
    (h : merge items target = some r) : (r.map key).Nodup := by
  obtain ⟨hr, -⟩ := dns_merge_some_eq h
  subst hr
  rw [List.map_map]
  have hcomp : (key ∘ accToArtifact) = DNSAcc.key := rfl
  rw [hcomp]
  rw [values_map_keyA key copySet (mergeUpd target) DNSAcc.key (fun i => rfl)
    (dnsAccKey_mergeUpd target)]
  exact keys_mergeFold_nodup key copySet (mergeUpd target) (foldOrder items)

end DNSArtifact

/-! ## CNAME and NXDOMAIN merge identity characterization -/

/-- The dict key a CNAME accumulator is filed under. -/
def CNAMEAcc.key (acc : CNAMEAcc) : String := acc.rname

namespace CNAMEArtifact

theorem cnAccKey_mergeUpd (target : Option (List String)) (a : CNAMEAcc)
    (i : CNAMEArtifact) : CNAMEAcc.key (mergeUpd target a i) = CNAMEAcc.key a := by
  by_cases h : isTargeted target i.client_address <;>
    simp [mergeUpd, CNAMEAcc.key, h]

def idSet (l : List CNAMEArtifact) : Finset String :=
  (l.map key).toFinset

theorem cn_merge_some_eq {items : List CNAMEArtifact}
    {target : Option (List String)} {r : List CNAMEArtifact}
    (h : merge items target = some r) :
    r = ((mergeFold key copySet (mergeUpd target)
          (foldOrder items)).map Prod.snd).map accToArtifact
      ∧ items ≠ [] := by
  unfold merge pyMerge at h
  split at h
  · exact absurd h (by simp)
  · rename_i hemp
    constructor
    · have h3 : some (((mergeFold key copySet (mergeUpd target)
          (foldOrder items)).map Prod.snd).map accToArtifact) = some r := h
      injection h3 with h2
      exact h2.symm
    · intro hc
      exact hemp (by simp [hc])

theorem cn_idSet_merge {items : List CNAMEArtifact}
    {target : Option (List String)} {r : List CNAMEArtifact}
    (h : merge items target = some r) : idSet r = idSet items := by
  obtain ⟨hr, -⟩ := cn_merge_some_eq h
  subst hr
  unfold idSet
  apply Finset.ext
  intro k
  rw [List.mem_toFinset, List.mem_toFinset]
  rw [List.map_map]
  have hcomp : (key ∘ accToArtifact) = CNAMEAcc.key := rfl
  rw [hcomp]
  rw [values_map_keyA key copySet (mergeUpd target) CNAMEAcc.key (fun i => rfl)
    (cnAccKey_mergeUpd target)]
  rw [mem_keys_mergeFold_iff]
  constructor
  · rintro ⟨i, hi, hik⟩
    exact List.mem_map.mpr ⟨i, (foldOrder_perm items).mem_iff.mp hi, hik⟩
  · intro hk
    obtain ⟨i, hi, hik⟩ := List.mem_map.mp hk
    exact ⟨i, (foldOrder_perm items).mem_iff.mpr hi, hik⟩

theorem cn_idList_merge_nodup {items : List CNAMEArtifact}
    {target : Option (List String)} {r : List CNAMEArtifact}
    (h : merge items target = some r) : (r.map key).Nodup := by
  obtain ⟨hr, -⟩ := cn_merge_some_eq h
  subst hr
  rw [List.map_map]
  have hcomp : (key ∘ accToArtifact) = CNAMEAcc.key := rfl
  rw [hcomp]
  rw [values_map_keyA key copySet (mergeUpd target) CNAMEAcc.key (fun i => rfl)
    (cnAccKey_mergeUpd target)]
  exact keys_mergeFold_nodup key copySet (mergeUpd target) (foldOrder items)

end CNAMEArtifact

namespace NXDOMAINArtifact

theorem nxKey_copy (a : NXDOMAINArtifact) : key (copy a) = key a := rfl

theorem nxKey_mergeUpd (target : Option (List String)) (a i : NXDOMAINArtifact) :
    key (mergeUpd target a i) = key a := by
  by_cases h : isTargeted target i.client_address <;> simp [mergeUpd, key, h]

def idSet (l : List NXDOMAINArtifact) : Finset String :=
  (l.map key).toFinset

theorem nx_merge_some_eq {items : List NXDOMAINArtifact}
    {target : Option (List String)} {r : List NXDOMAINArtifact}
    (h : merge items target = some r) :
    r = (mergeFold key copy (mergeUpd target) (foldOrder items)).map Prod.snd
      ∧ items ≠ [] := by
  unfold merge pyMerge at h
  split at h
  · exact absurd h (by simp)
  · rename_i hemp
    constructor
    · injection h with h2
      exact h2.symm
    · intro hc
      exact hemp (by simp [hc])

theorem nx_idSet_merge {items : List NXDOMAINArtifact}
    {target : Option (List String)} {r : List NXDOMAINArtifact}
    (h : merge items target = some r) : idSet r = idSet items := by
  obtain ⟨hr, -⟩ := nx_merge_some_eq h
  subst hr
  unfold idSet
  apply Finset.ext
  intro k
  rw [List.mem_toFinset, List.mem_toFinset]
  rw [values_map_keyA key copy (mergeUpd target) key (fun i => rfl)
    (nxKey_mergeUpd target)]
  rw [mem_keys_mergeFold_iff]
  constructor
  · rintro ⟨i, hi, hik⟩
    exact List.mem_map.mpr ⟨i, (foldOrder_perm items).mem_iff.mp hi, hik⟩
  · intro hk
    obtain ⟨i, hi, hik⟩ := List.mem_map.mp hk
    exact ⟨i, (foldOrder_perm items).mem_iff.mpr hi, hik⟩

theorem nx_idList_merge_nodup {items : List NXDOMAINArtifact}
    {target : Option (List String)} {r : List NXDOMAINArtifact}
    (h : merge items target = some r) : (r.map key).Nodup := by
  obtain ⟨hr, -⟩ := nx_merge_some_eq h
  subst hr
  rw [values_map_keyA key copy (mergeUpd target) key (fun i => rfl)
    (nxKey_mergeUpd target)]
  exact keys_mergeFold_nodup key copy (mergeUpd target) (foldOrder items)

end NXDOMAINArtifact

/-! ## Auxiliary observation lemmas -/

theorem list_toFinset_perm {α : Type} [DecidableEq α] {l1 l2 : List α}
    (h : l1.Perm l2) : l1.toFinset = l2.toFinset := by
  apply Finset.ext
  intro x
  rw [List.mem_toFinset, List.mem_toFinset]
  exact h.mem_iff

theorem NetflowArtifact.nf_idSet_perm {l1 l2 : List NetflowArtifact}
    (h : l1.Perm l2) : NetflowArtifact.idSet l1 = NetflowArtifact.idSet l2 :=
  list_toFinset_perm (h.map _)

theorem DNSArtifact.dns_idSet_perm {l1 l2 : List DNSArtifact}
    (h : l1.Perm l2) : DNSArtifact.idSet l1 = DNSArtifact.idSet l2 :=
  list_toFinset_perm (h.map _)

theorem NetflowArtifact.countFor_append (k : String)
    (l1 l2 : List NetflowArtifact) :
    NetflowArtifact.countFor k (l1 ++ l2) =
      NetflowArtifact.countFor k l1 + NetflowArtifact.countFor k l2 := by
  unfold NetflowArtifact.countFor
  rw [List.filter_append, List.map_append, List.sum_append]

theorem NetflowArtifact.nf_idSet_append (l1 l2 : List NetflowArtifact) :
    NetflowArtifact.idSet (l1 ++ l2) =
      NetflowArtifact.idSet l1 ∪ NetflowArtifact.idSet l2 := by
  unfold NetflowArtifact.idSet
  rw [List.map_append, List.toFinset_append]

theorem DNSArtifact.dns_idSet_append (l1 l2 : List DNSArtifact) :
    DNSArtifact.idSet (l1 ++ l2) =
      DNSArtifact.idSet l1 ∪ DNSArtifact.idSet l2 := by
  unfold DNSArtifact.idSet
  rw [List.map_append, List.toFinset_append]

theorem DNSArtifact.onamesFor_append (k : String) (l1 l2 : List DNSArtifact) :
    DNSArtifact.onamesFor k (l1 ++ l2) =
      DNSArtifact.onamesFor k l1 ∪ DNSArtifact.onamesFor k l2 := by
  unfold DNSArtifact.onamesFor
  apply Finset.ext
  intro x
  rw [List.filter_append]
  rw [mem_foldl_union, Finset.mem_union, mem_foldl_union, mem_foldl_union]
  constructor
  · rintro (hb | ⟨a, ha, hx⟩)
    · simp at hb
    · rcases List.mem_append.mp ha with h1 | h1
      · exact Or.inl (Or.inr ⟨a, h1, hx⟩)
      · exact Or.inr (Or.inr ⟨a, h1, hx⟩)
  · rintro ((hb | ⟨a, ha, hx⟩) | (hb | ⟨a, ha, hx⟩))
    · simp at hb
    · exact Or.inr ⟨a, List.mem_append.mpr (Or.inl ha), hx⟩
    · simp at hb
    · exact Or.inr ⟨a, List.mem_append.mpr (Or.inr ha), hx⟩

/-! ## Claim theorems: merge algebra -/

/-- C1: for every non-empty list of same-variant artifacts and every fixed
target filter, merging a permutation of the list, or merging the merge
results of a regrouping of the list, yields the same set of identity values
and, per identity, the same summed count (NetflowArtifact) and the same set
of onames (DNSArtifact) as merging in the original order. -/
theorem claim_C1 :
    (∀ (items1 items2 : List NetflowArtifact) (target : Option (List String))
        (r1 r2 : List NetflowArtifact),
      items1.Perm items2 →
      NetflowArtifact.merge items1 target = some r1 →
      NetflowArtifact.merge items2 target = some r2 →
      NetflowArtifact.idSet r1 = NetflowArtifact.idSet r2 ∧
        ∀ k, NetflowArtifact.countFor k r1 = NetflowArtifact.countFor k r2) ∧
    (∀ (xs ys : List NetflowArtifact) (target : Option (List String))
        (rx ry rall rg : List NetflowArtifact),
      NetflowArtifact.merge xs target = some rx →
      NetflowArtifact.merge ys target = some ry →
      NetflowArtifact.merge (xs ++ ys) target = some rall →
      NetflowArtifact.merge (rx ++ ry) target = some rg →
      NetflowArtifact.idSet rg = NetflowArtifact.idSet rall ∧
        ∀ k, NetflowArtifact.countFor k rg = NetflowArtifact.countFor k rall) ∧
    (∀ (items1 items2 : List DNSArtifact) (target : Option (List String))
        (r1 r2 : List DNSArtifact),
      items1.Perm items2 →
      DNSArtifact.merge items1 target = some r1 →
      DNSArtifact.merge items2 target = some r2 →
      DNSArtifact.idSet r1 = DNSArtifact.idSet r2 ∧
        ∀ k, DNSArtifact.onamesFor k r1 = DNSArtifact.onamesFor k r2) ∧
    (∀ (xs ys : List DNSArtifact) (target : Option (List String))
        (rx ry rall rg : List DNSArtifact),
      DNSArtifact.merge xs target = some rx →
      DNSArtifact.merge ys target = some ry →
      DNSArtifact.merge (xs ++ ys) target = some rall →
      DNSArtifact.merge (rx ++ ry) target = some rg →
      DNSArtifact.idSet rg = DNSArtifact.idSet rall ∧
        ∀ k, DNSArtifact.onamesFor k rg = DNSArtifact.onamesFor k rall) := by
  refine ⟨?_, ?_, ?_, ?_⟩
  · intro items1 items2 target r1 r2 hp h1 h2
    constructor
    · rw [NetflowArtifact.nf_idSet_merge h1, NetflowArtifact.nf_idSet_merge h2]
      exact NetflowArtifact.nf_idSet_perm hp
    · intro k
      rw [NetflowArtifact.countFor_merge h1 k,
        NetflowArtifact.countFor_merge h2 k]
      exact NetflowArtifact.countFor_perm hp k
  · intro xs ys target rx ry rall rg hx hy hall hg
    constructor
    · rw [NetflowArtifact.nf_idSet_merge hg, NetflowArtifact.nf_idSet_merge hall,
        NetflowArtifact.nf_idSet_append, NetflowArtifact.nf_idSet_append,
        NetflowArtifact.nf_idSet_merge hx, NetflowArtifact.nf_idSet_merge hy]
    · intro k
      rw [NetflowArtifact.countFor_merge hg k,
        NetflowArtifact.countFor_merge hall k,
        NetflowArtifact.countFor_append, NetflowArtifact.countFor_append,
        NetflowArtifact.countFor_merge hx k,
        NetflowArtifact.countFor_merge hy k]
  · intro items1 items2 target r1 r2 hp h1 h2
    constructor
    · rw [DNSArtifact.dns_idSet_merge h1, DNSArtifact.dns_idSet_merge h2]
      exact DNSArtifact.dns_idSet_perm hp
    · intro k
      rw [DNSArtifact.onamesFor_merge h1 k, DNSArtifact.onamesFor_merge h2 k]
      exact DNSArtifact.onamesFor_perm hp k
  · intro xs ys target rx ry rall rg hx hy hall hg
    constructor
    · rw [DNSArtifact.dns_idSet_merge hg, DNSArtifact.dns_idSet_merge hall,
        DNSArtifact.dns_idSet_append, DNSArtifact.dns_idSet_append,
        DNSArtifact.dns_idSet_merge hx, DNSArtifact.dns_idSet_merge hy]
    · intro k
      rw [DNSArtifact.onamesFor_merge hg k,
        DNSArtifact.onamesFor_merge hall k,
        DNSArtifact.onamesFor_append, DNSArtifact.onamesFor_append,
        DNSArtifact.onamesFor_merge hx k,
        DNSArtifact.onamesFor_merge hy k]

/-! ## Concrete artifacts used by witnesses -/

def nfW1 : NetflowArtifact :=
  { client_address := "10.0.0.5", remote_address := "93.184.216.34",
    remote_port := "443", count := 3, tag := .flow,
    mdtypesOverride := none, metadata := none }

def nfW2 : NetflowArtifact :=
  { client_address := "10.0.0.6", remote_address := "93.184.216.34",
    remote_port := "443", count := 5, tag := .flow,
    mdtypesOverride := none, metadata := none }

def dnsW1 : DNSArtifact :=
  { client_address := "10.0.0.5", remote_address := "93.184.216.34",
    onames := ["www.example.com"], metadata := none }

def dnsW2 : DNSArtifact :=
  { client_address := "10.0.0.6", remote_address := "93.184.216.34",
    onames := ["example.net"], metadata := none }

theorem claim_C1_witness :
    NetflowArtifact.idSet ((NetflowArtifact.merge [nfW1, nfW2] none).getD [])
      = NetflowArtifact.idSet ((NetflowArtifact.merge [nfW2, nfW1] none).getD [])
    ∧ NetflowArtifact.countFor "93.184.216.34+443"
        ((NetflowArtifact.merge [nfW1, nfW2] none).getD [])
      = NetflowArtifact.countFor "93.184.216.34+443"
        ((NetflowArtifact.merge [nfW2, nfW1] none).getD [])
    ∧ DNSArtifact.onamesFor "93.184.216.34"
        ((DNSArtifact.merge [dnsW1, dnsW2] none).getD [])
      = DNSArtifact.onamesFor "93.184.216.34"
        ((DNSArtifact.merge [dnsW2, dnsW1] none).getD []) := by
  have hpnf : ([nfW1, nfW2] : List NetflowArtifact).Perm [nfW2, nfW1] :=
    List.Perm.swap nfW2 nfW1 []
  have hpdns : ([dnsW1, dnsW2] : List DNSArtifact).Perm [dnsW2, dnsW1] :=
    List.Perm.swap dnsW2 dnsW1 []
  have h1 : NetflowArtifact.merge [nfW1, nfW2] none =
      some ((NetflowArtifact.merge [nfW1, nfW2] none).getD []) := by decide
  have h2 : NetflowArtifact.merge [nfW2, nfW1] none =
      some ((NetflowArtifact.merge [nfW2, nfW1] none).getD []) := by decide
  have h3 : DNSArtifact.merge [dnsW1, dnsW2] none =
      some ((DNSArtifact.merge [dnsW1, dnsW2] none).getD []) := by decide
  have h4 : DNSArtifact.merge [dnsW2, dnsW1] none =
      some ((DNSArtifact.merge [dnsW2, dnsW1] none).getD []) := by decide
  obtain ⟨hid, hcnt⟩ := claim_C1.1 _ _ none _ _ hpnf h1 h2
  obtain ⟨-, hon⟩ := claim_C1.2.2.1 _ _ none _ _ hpdns h3 h4
  exact ⟨hid, hcnt _, hon _⟩

/-- The artifact produced by merging nfW1 and nfW2 (counts 3 and 5, same
remote address and port). -/
def nfWMerged : NetflowArtifact :=
  { client_address := "10.0.0.5", remote_address := "93.184.216.34",
    remote_port := "443", count := 8, tag := .flow,
    mdtypesOverride := none,
    metadata := some { mtargets := ∅,
                       mclients := {"10.0.0.6", "10.0.0.5"},
                       mtypes := {"Netflow"},
                       mports := {"443"} } }

/-- C6: every variant's merge returns exactly one merged artifact per
distinct identity value observed in the input (remote_address plus
remote_port for the Netflow family, remote_address for DNS, rname for CNAME,
oname for NXDOMAIN); and merging two Netflow artifacts with the same
identity and counts 3 and 5 yields a single artifact with count 8 whose
metadata is the union of the constituents' metadata contributions. -/
theorem claim_C6 :
    (∀ (items : List NetflowArtifact) (target : Option (List String))
        (r : List NetflowArtifact),
      NetflowArtifact.merge items target = some r →
      (r.map NetflowArtifact.key).Nodup ∧
        NetflowArtifact.idSet r = NetflowArtifact.idSet items) ∧
    (∀ (items : List DNSArtifact) (target : Option (List String))
        (r : List DNSArtifact),
      DNSArtifact.merge items target = some r →
      (r.map DNSArtifact.key).Nodup ∧
        DNSArtifact.idSet r = DNSArtifact.idSet items) ∧
    (∀ (items : List CNAMEArtifact) (target : Option (List String))
        (r : List CNAMEArtifact),
      CNAMEArtifact.merge items target = some r →
      (r.map CNAMEArtifact.key).Nodup ∧
        CNAMEArtifact.idSet r = CNAMEArtifact.idSet items) ∧
    (∀ (items : List NXDOMAINArtifact) (target : Option (List String))
        (r : List NXDOMAINArtifact),
      NXDOMAINArtifact.merge items target = some r →
      (r.map NXDOMAINArtifact.key).Nodup ∧
        NXDOMAINArtifact.idSet r = NXDOMAINArtifact.idSet items) ∧
    (NetflowArtifact.merge [nfW1, nfW2] none = some [nfWMerged] ∧
      nfWMerged.count = 8 ∧
      ∀ t : MType, nfWMerged.metadata_for t =
        nfW1.metadata_for t ∪ nfW2.metadata_for t) := by
  refine ⟨?_, ?_, ?_, ?_, ?_, ?_, ?_⟩
  · intro items target r h
    exact ⟨NetflowArtifact.nf_idList_merge_nodup h, NetflowArtifact.nf_idSet_merge h⟩
  · intro items target r h
    exact ⟨DNSArtifact.dns_idList_merge_nodup h, DNSArtifact.dns_idSet_merge h⟩
  · intro items target r h
    exact ⟨CNAMEArtifact.cn_idList_merge_nodup h, CNAMEArtifact.cn_idSet_merge h⟩
  · intro items target r h
    exact ⟨NXDOMAINArtifact.nx_idList_merge_nodup h, NXDOMAINArtifact.nx_idSet_merge h⟩
  · decide
  · decide
  · intro t
    cases t <;> decide

theorem claim_C6_witness :
    ((((NetflowArtifact.merge [nfW1, nfW2] none).getD []).map
        NetflowArtifact.key).Nodup ∧
      NetflowArtifact.idSet ((NetflowArtifact.merge [nfW1, nfW2] none).getD [])
        = NetflowArtifact.idSet [nfW1, nfW2]) ∧
    ((((DNSArtifact.merge [dnsW1, dnsW2] none).getD []).map
        DNSArtifact.key).Nodup ∧
      DNSArtifact.idSet ((DNSArtifact.merge [dnsW1, dnsW2] none).getD [])
        = DNSArtifact.idSet [dnsW1, dnsW2]) := by
  constructor
  · exact claim_C6.1 [nfW1, nfW2] none _ (by decide)
  · exact claim_C6.2.1 [dnsW1, dnsW2] none _ (by decide)

/-- C5: each merged NetflowArtifact takes its client_address from the last
constituent of its identity partition, in fold-encounter order, that
satisfies is_targeted(target); when no constituent after the seed matches,
the result falls back to the seed (the partition's first fold-encountered
constituent), which getLastD makes the default. -/
theorem claim_C5 (items : List NetflowArtifact) (target : Option (List String))
    (r : List NetflowArtifact) (h : NetflowArtifact.merge items target = some r)
    (a : NetflowArtifact) (ha : a ∈ r) :
    ∃ h0 t, (foldOrder items).filter
        (fun i => decide (NetflowArtifact.key i = NetflowArtifact.key a))
        = h0 :: t ∧
      a.client_address =
        (((h0 :: t).filter fun i => isTargeted target i.client_address).getLastD
          h0).client_address := by
  obtain ⟨hr, -⟩ := NetflowArtifact.nf_merge_some_eq h
  subst hr
  obtain ⟨k, hk⟩ := (mem_values_mergeFold NetflowArtifact.key
    NetflowArtifact.copy (NetflowArtifact.mergeUpd target)
    (foldOrder items) a).mp ha
  have hka : NetflowArtifact.key a = k :=
    mergeFold_wellKeyed NetflowArtifact.key NetflowArtifact.copy
      (NetflowArtifact.mergeUpd target) NetflowArtifact.key (fun i => rfl)
      (NetflowArtifact.nfKey_mergeUpd target) (foldOrder items) (k, a)
      (alookup_some_mem hk)
  rw [alookup_mergeFold] at hk
  cases hf : (foldOrder items).filter
      (fun i => decide (NetflowArtifact.key i = k)) with
  | nil =>
    rw [hf] at hk
    exact absurd hk (by simp)
  | cons h0 t =>
    rw [hf] at hk
    have hk3 : some (t.foldl (NetflowArtifact.mergeUpd target)
        (NetflowArtifact.copy h0)) = some a := hk
    injection hk3 with hk2
    refine ⟨h0, t, by rw [hka]; exact hf, ?_⟩
    subst hk2
    have hcl := foldl_proj_lastMatch (NetflowArtifact.mergeUpd target)
      NetflowArtifact.client_address
      (fun i => isTargeted target i.client_address)
      (fun i => i.client_address) (NetflowArtifact.client_mergeUpd target)
      (NetflowArtifact.copy h0) t
    rw [hcl]
    cases hlt : (t.filter fun i => isTargeted target i.client_address).getLast?
        with
    | none =>
      have htf : t.filter (fun i => isTargeted target i.client_address) = [] := by
        cases hl : t.filter (fun i => isTargeted target i.client_address) with
        | nil => rfl
        | cons x xs =>
          rw [hl] at hlt
          simp [List.getLast?_concat] at hlt
      rw [List.filter_cons, htf]
      by_cases hp : isTargeted target h0.client_address
      · simp [hp, NetflowArtifact.client_copy]
      · simp [hp, NetflowArtifact.client_copy]
    | some i =>
      rw [List.filter_cons]
      by_cases hp : isTargeted target h0.client_address
      · simp only [hp, if_pos]
        rw [List.getLastD_cons, List.getLastD_eq_getLast?, hlt]
        rfl
      · simp only [hp, if_false, Bool.false_eq_true]
        rw [List.getLastD_eq_getLast?, hlt]
        rfl

def c5r : List NetflowArtifact :=
  (NetflowArtifact.merge [nfW1, nfW2] (some ["10.0.0.6"])).getD []

def c5a : NetflowArtifact := c5r.headD nfW1

theorem claim_C5_witness :
    ∃ h0 t, (foldOrder [nfW1, nfW2]).filter
        (fun i => decide (NetflowArtifact.key i = NetflowArtifact.key c5a))
        = h0 :: t ∧
      c5a.client_address =
        (((h0 :: t).filter
            fun i => isTargeted (some ["10.0.0.6"]) i.client_address).getLastD
          h0).client_address :=
  claim_C5 [nfW1, nfW2] (some ["10.0.0.6"]) c5r (by decide) c5a (by decide)

/-! ## Claim C9: decoding the concrete DNS record -/

/-- C9: decoding key 10.0.0.5;93.184.216.34;dns with value www.example.com;
yields a DNSArtifact with the stated client and remote addresses and the
single oname www.example.com (the empty field after the trailing semicolon
contributes nothing), whose address-projection children with no target
filter are exactly (www.example.com, true). -/
theorem claim_C9 :
    ∃ a : DNSArtifact,
      DNSArtifact.decode "10.0.0.5;93.184.216.34;dns" "www.example.com;"
          = some a ∧
        a.client_address = "10.0.0.5" ∧
        a.remote_address = "93.184.216.34" ∧
        a.onames = ["www.example.com"] ∧
        a.children OriginType.address none = [("www.example.com", true)] := by
  refine ⟨{ client_address := "10.0.0.5", remote_address := "93.184.216.34",
            onames := ["www.example.com"], metadata := none }, ?_, rfl, rfl,
          rfl, rfl⟩
  decide

/-! ## Claim C4: double reversal of a Recon artifact -/

def rstW : NetflowArtifact :=
  { client_address := "10.0.0.5", remote_address := "203.0.113.7",
    remote_port := "23", count := 4, tag := .rst,
    mdtypesOverride := none, metadata := none }

/-- C4 counterexample: for the RST artifact rstW, reversing twice does not
restore the metadata-type set: clients is in rstW's METADATA_TYPES but not in
rstW.reversed().reversed()'s, which is the reversed set. -/
theorem claim_C4_counterexample :
    MType.clients ∈ rstW.mdtypes ∧
      MType.clients ∉ (ReconArtifact.reversed (ReconArtifact.reversed
        rstW)).mdtypes := by
  decide

/-- C4 amended: double reversal restores the client/remote assignment (and
port, count and class), but the metadata-type set of any reversed artifact is
REVERSED_METADATA_TYPES = targets/types/ports; so a.reversed().reversed()
carries the reversed metadata-type set, not a's original one. -/
theorem claim_C4_amended (a : NetflowArtifact) :
    (ReconArtifact.reversed (ReconArtifact.reversed a)).client_address
        = a.client_address ∧
    (ReconArtifact.reversed (ReconArtifact.reversed a)).remote_address
        = a.remote_address ∧
    (ReconArtifact.reversed (ReconArtifact.reversed a)).remote_port
        = a.remote_port ∧
    (ReconArtifact.reversed (ReconArtifact.reversed a)).count = a.count ∧
    (ReconArtifact.reversed (ReconArtifact.reversed a)).tag = a.tag ∧
    (ReconArtifact.reversed (ReconArtifact.reversed a)).mdtypes
        = ReconArtifact.REVERSED_METADATA_TYPES ∧
    (ReconArtifact.reversed (ReconArtifact.reversed a)).mdtypes
        = (ReconArtifact.reversed a).mdtypes := by
  refine ⟨rfl, rfl, rfl, rfl, rfl, rfl, rfl⟩

/-! ## Claims C2 and C7: classifier and write gating -/

/-- C2: for a TCP or UDP frame, if exactly one endpoint is inside the local
network, the derived flow key is client;remote;remote_port;flow with the
local address as client, the other address as remote, and the remote side's
port; if both or neither endpoint is local, no key is derived. -/
theorem claim_C2 (ourNetwork : List String) (pkt : Frame)
    (hp : pkt.p ∈ TCP_OR_UDP) :
    (pkt.src ∈ ourNetwork → pkt.dst ∈ ourNetwork →
      derivedFlowKey ourNetwork pkt = none) ∧
    (pkt.src ∈ ourNetwork → pkt.dst ∉ ourNetwork →
      derivedFlowKey ourNetwork pkt =
        some (pkt.src ++ ";" ++ pkt.dst ++ ";" ++ toString pkt.dport
          ++ ";flow")) ∧
    (pkt.src ∉ ourNetwork → pkt.dst ∈ ourNetwork →
      derivedFlowKey ourNetwork pkt =
        some (pkt.dst ++ ";" ++ pkt.src ++ ";" ++ toString pkt.sport
          ++ ";flow")) ∧
    (pkt.src ∉ ourNetwork → pkt.dst ∉ ourNetwork →
      derivedFlowKey ourNetwork pkt = none) := by
  refine ⟨?_, ?_, ?_, ?_⟩ <;> intro h1 h2 <;>
    simp [derivedFlowKey, classifyKey, hp, h1, h2, mkFlowKey]

def pktW : Frame :=
  { p := 6, src := "10.0.0.5", dst := "93.184.216.34",
    sport := 40000, dport := 443 }

theorem claim_C2_witness :
    derivedFlowKey ["10.0.0.5"] pktW =
      some ("10.0.0.5" ++ ";" ++ "93.184.216.34" ++ ";" ++ toString 443
        ++ ";flow") :=
  (claim_C2 ["10.0.0.5"] pktW (by decide)).2.1 (by decide) (by decide)

/-- C7: when a flow key is derived, process_data submits the deferred write
exactly when the recency cache reports the key as not seen, and the
submitted unit of work performs exactly: register the client, increment the
key's counter, and reset the key's expiry to TTL_GRACE, which defaults to
900 seconds. -/
theorem claim_C7 :
    (∀ (ourNetwork : List String) (rec : RecentState) (pkt : Frame)
        (now : Int) (client remote : String) (remotePort : Nat),
      classifyKey ourNetwork pkt = some (client, remote, remotePort) →
      ((processData ourNetwork rec pkt now).2
          = some (client, mkFlowKey client remote remotePort) ↔
        (seen rec (mkFlowKey client remote remotePort) now).2 = false)) ∧
    (∀ client k, flowToRedis client k =
      [StoreOp.registerClient client, StoreOp.incr k, StoreOp.expire k 900])
    ∧ TTL_GRACE = 900 := by
  refine ⟨?_, fun client k => rfl, rfl⟩
  intro ourNetwork rec pkt now client remote remotePort h
  simp only [processData, h]
  by_cases hs : (seen rec (mkFlowKey client remote remotePort) now).2 <;>
    simp [hs]

theorem claim_C7_witness :
    (processData ["10.0.0.5"] (Recent.init 30 3 10 0) pktW 0).2
        = some ("10.0.0.5", mkFlowKey "10.0.0.5" "93.184.216.34" 443) ↔
      (seen (Recent.init 30 3 10 0)
        (mkFlowKey "10.0.0.5" "93.184.216.34" 443) 0).2 = false :=
  claim_C7.1 ["10.0.0.5"] (Recent.init 30 3 10 0) pktW 0 "10.0.0.5"
    "93.184.216.34" 443 (by decide)

/-! ## Recent cache: invariant (claim C10) -/

theorem list_getD_append_left {α : Type} (l l2 : List α) (i : Nat) (d : α)
    (h : i < l.length) : (l ++ l2).getD i d = l.getD i d := by
  induction l generalizing i with
  | nil => simp at h
  | cons x xs ih =>
    cases i with
    | zero => rfl
    | succ j =>
      simp only [List.length_cons, Nat.succ_lt_succ_iff] at h
      simpa [List.getD] using ih j h

theorem list_getD_append_first {α : Type} (l : List α) (a b d : α) :
    (l ++ [a, b]).getD l.length d = a := by
  induction l with
  | nil => rfl
  | cons x xs ih => simpa [List.getD] using ih

theorem list_getD_append_second {α : Type} (l : List α) (a b d : α) :
    (l ++ [a, b]).getD (l.length + 1) d = b := by
  induction l with
  | nil => rfl
  | cons x xs ih => simpa [List.getD] using ih

theorem list_getD_set_self {α : Type} (l : List α) (i : Nat) (x d : α)
    (h : i < l.length) : (l.set i x).getD i d = x := by
  induction l generalizing i with
  | nil => simp at h
  | cons y ys ih =>
    cases i with
    | zero => rfl
    | succ j =>
      simp only [List.length_cons, Nat.succ_lt_succ_iff] at h
      simpa [List.getD] using ih j h

theorem list_getD_set_ne {α : Type} (l : List α) (i j : Nat) (x d : α)
    (h : i ≠ j) : (l.set i x).getD j d = l.getD j d := by
  induction l generalizing i j with
  | nil => simp [List.set]
  | cons y ys ih =>
    cases i with
    | zero =>
      cases j with
      | zero => exact absurd rfl h
      | succ j2 => rfl
    | succ i2 =>
      cases j with
      | zero => rfl
      | succ j2 =>
        simpa [List.getD] using ih i2 j2 (fun hc => h (by rw [hc]))

theorem list_getD_replicate {α : Type} (n i : Nat) (a : α) :
    (List.replicate n a).getD i a = a := by
  induction n generalizing i with
  | zero => cases i <;> rfl
  | succ m ih =>
    cases i with
    | zero => rfl
    | succ j =>
      simp only [List.replicate]
      exact ih j

theorem foldl_union_congr {α : Type} (g1 g2 : α → Finset String) (l : List α)
    (h : ∀ a ∈ l, g1 a = g2 a) (b : Finset String) :
    l.foldl (fun s a => s ∪ g1 a) b = l.foldl (fun s a => s ∪ g2 a) b := by
  induction l generalizing b with
  | nil => rfl
  | cons a l ih =>
    simp only [List.foldl_cons]
    rw [h a (List.mem_cons_self a l)]
    exact ih (fun x hx => h x (List.mem_cons_of_mem a hx)) _

/-- The union of all bucket objects. -/
def bucketsUnion (s : RecentState) : Finset String :=
  s.buckets.foldl (fun acc r => acc ∪ getSet s r) ∅

/-- The Recent cache invariant: exactly B buckets, current is the reference
stored in buckets[0], the working-set object holds the union of all bucket
objects, all references are live, the working-set object is none of the
bucket objects, and the bucket references are pairwise distinct. -/
def RInv (B : Nat) (s : RecentState) : Prop :=
  s.buckets.length = B ∧
  s.buckets.head? = some s.cur ∧
  getSet s s.ws = bucketsUnion s ∧
  s.ws < s.store.length ∧
  (∀ r ∈ s.buckets, r < s.store.length) ∧
  s.ws ∉ s.buckets ∧
  s.buckets.Nodup

/-- The state built by the rotation branch of check_frequency. -/
def rotState (s : RecentState) (now : Int) : RecentState :=
  { s with
    count := 0
    lastTime := now
    store := s.store ++
      [(s.buckets.dropLast).foldl (fun acc r => acc ∪ getSet s r) ∅, ∅]
    ws := s.store.length
    cur := s.store.length + 1
    buckets := (s.store.length + 1) :: s.buckets.dropLast }

theorem checkFrequency_eq_nonrot {s : RecentState} {now : Int}
    (h : rotates s now = false) :
    checkFrequency s now =
      { s with count := if s.count + 1 < s.frequency then s.count + 1 else 0 } := by
  unfold checkFrequency
  unfold rotates at h
  by_cases h1 : s.count + 1 < s.frequency
  · simp [h1]
  · have hfreq : s.frequency ≤ s.count + 1 := Nat.le_of_not_lt h1
    simp only [decide_eq_true_eq, Bool.and_eq_false_iff, decide_eq_false_iff_not] at h
    rcases h with h2 | h2
    · exact absurd hfreq h2
    · have h3 : now - s.lastTime < s.cycle := lt_of_not_ge h2
      simp [h1, h3]

theorem checkFrequency_eq_rot {s : RecentState} {now : Int}
    (h : rotates s now = true) :
    checkFrequency s now = rotState s now := by
  unfold checkFrequency rotState
  unfold rotates at h
  simp only [Bool.and_eq_true, decide_eq_true_eq] at h
  have h1 : ¬ s.count + 1 < s.frequency := Nat.not_lt_of_le h.1
  have h2 : ¬ now - s.lastTime < s.cycle := not_lt_of_ge h.2
  simp [h1, h2]

theorem mem_bucketsUnion {s : RecentState} {x : String} :
    x ∈ bucketsUnion s ↔ ∃ r ∈ s.buckets, x ∈ getSet s r := by
  unfold bucketsUnion
  rw [mem_foldl_union]
  simp

theorem RInv_init (cycle : Int) (B frequency : Nat) (t0 : Int) (hB : 1 ≤ B) :
    RInv B (Recent.init cycle B frequency t0) := by
  have hgs : ∀ r, getSet (Recent.init cycle B frequency t0) r = ∅ := by
    intro r
    unfold getSet Recent.init
    simp only
    rw [← List.replicate_succ' (n := B)]
    exact list_getD_replicate (B + 1) r ∅
  refine ⟨by simp [Recent.init], ?_, ?_, ?_, ?_, ?_, ?_⟩
  · unfold Recent.init
    simp only
    cases B with
    | zero => exact absurd hB (by omega)
    | succ m =>
      rw [List.range_succ_eq_map]
      rfl
  · rw [hgs]
    apply Finset.ext
    intro x
    rw [mem_bucketsUnion]
    simp only [Finset.not_mem_empty, false_iff]
    rintro ⟨r, -, hr⟩
    rw [hgs r] at hr
    exact absurd hr (Finset.not_mem_empty x)
  · unfold Recent.init
    simp
  · intro r hr
    unfold Recent.init at hr ⊢
    simp only [List.mem_range] at hr
    simp only [List.length_append, List.length_replicate]
    omega
  · unfold Recent.init
    simp
  · unfold Recent.init
    simp only
    exact List.nodup_range B

/-- The state mutation of a seen miss: insert into the working-set object and
into the current bucket object. -/
def seenInsert (s : RecentState) (x : String) : RecentState :=
  let s2 := { s with store := s.store.set s.ws (insert x (getSet s s.ws)) }
  { s2 with store := s2.store.set s2.cur (insert x (getSet s2 s2.cur)) }

theorem seen_eq (s : RecentState) (x : String) (now : Int) :
    seen s x now =
      if x ∈ getSet (checkFrequency s now) (checkFrequency s now).ws then
        (checkFrequency s now, true)
      else (seenInsert (checkFrequency s now) x, false) := rfl

theorem seenInsert_buckets (s : RecentState) (x : String) :
    (seenInsert s x).buckets = s.buckets := rfl

theorem seenInsert_cur (s : RecentState) (x : String) :
    (seenInsert s x).cur = s.cur := rfl

theorem seenInsert_ws (s : RecentState) (x : String) :
    (seenInsert s x).ws = s.ws := rfl

theorem seenInsert_store_length (s : RecentState) (x : String) :
    (seenInsert s x).store.length = s.store.length := by
  unfold seenInsert
  simp [List.length_set]

theorem getSet_seenInsert_ws (s : RecentState) (x : String)
    (hne : s.ws ≠ s.cur) (hv : s.ws < s.store.length) :
    getSet (seenInsert s x) s.ws = insert x (getSet s s.ws) := by
  unfold seenInsert getSet
  simp only
  rw [list_getD_set_ne _ _ _ _ _ (fun hc => hne hc.symm)]
  exact list_getD_set_self _ _ _ _ hv

theorem getSet_seenInsert_cur (s : RecentState) (x : String)
    (hne : s.ws ≠ s.cur) (hv : s.cur < s.store.length) :
    getSet (seenInsert s x) s.cur = insert x (getSet s s.cur) := by
  unfold seenInsert getSet
  simp only
  rw [list_getD_set_self _ _ _ _ (by simpa [List.length_set] using hv)]
  rw [list_getD_set_ne _ _ _ _ _ hne]

theorem getSet_seenInsert_other (s : RecentState) (x : String) (r : Nat)
    (h1 : s.ws ≠ r) (h2 : s.cur ≠ r) :
    getSet (seenInsert s x) r = getSet s r := by
  unfold seenInsert getSet
  simp only
  rw [list_getD_set_ne _ _ _ _ _ h2, list_getD_set_ne _ _ _ _ _ h1]

theorem RInv_checkFrequency {B : Nat} {s : RecentState} (now : Int)
    (hInv : RInv B s) : RInv B (checkFrequency s now) := by
  cases hrot : rotates s now with
  | false =>
    rw [checkFrequency_eq_nonrot hrot]
    exact hInv
  | true =>
    rw [checkFrequency_eq_rot hrot]
    obtain ⟨hlen, hhead, hwsu, hwsv, hbv, hwsn, hnd⟩ := hInv
    have hBne : s.buckets ≠ [] := by
      intro hc
      rw [hc] at hhead
      exact absurd hhead (by simp)
    have hdlsub : s.buckets.dropLast ⊆ s.buckets :=
      (List.dropLast_sublist s.buckets).subset
    have h2 : getSet (rotState s now) (s.store.length + 1) = ∅ := by
      unfold rotState getSet
      simp only
      exact list_getD_append_second _ _ _ _
    have h3 : ∀ r ∈ s.buckets.dropLast,
        getSet (rotState s now) r = getSet s r := by
      intro r hr
      unfold rotState getSet
      simp only
      exact list_getD_append_left _ _ _ _ (hbv r (hdlsub hr))
    refine ⟨?_, rfl, ?_, ?_, ?_, ?_, ?_⟩
    · unfold rotState
      simp only [List.length_cons, List.length_dropLast, hlen]
      have : 1 ≤ B := by
        rw [← hlen]
        exact List.length_pos.mpr hBne
      omega
    · have h1 : getSet (rotState s now) (s.store.length) =
          (s.buckets.dropLast).foldl (fun acc r => acc ∪ getSet s r) ∅ := by
        unfold rotState getSet
        simp only
        exact list_getD_append_first _ _ _ _
      show getSet (rotState s now) (s.store.length) = _
      rw [h1]
      unfold bucketsUnion
      show _ = ((s.store.length + 1) :: s.buckets.dropLast).foldl
        (fun acc r => acc ∪ getSet (rotState s now) r) ∅
      rw [List.foldl_cons, h2]
      rw [foldl_union_congr _ _ _ h3]
      rw [Finset.union_empty]
    · unfold rotState
      simp only [List.length_append, List.length_cons, List.length_nil]
      omega
    · intro r hr
      unfold rotState at hr ⊢
      simp only [List.mem_cons] at hr
      simp only [List.length_append, List.length_cons, List.length_nil]
      rcases hr with rfl | hr
      · omega
      · have := hbv r (hdlsub hr)
        omega
    · unfold rotState
      simp only [List.mem_cons, not_or]
      constructor
      · omega
      · intro hc
        have := hbv _ (hdlsub hc)
        omega
    · unfold rotState
      simp only [List.nodup_cons]
      constructor
      · intro hc
        have := hbv _ (hdlsub hc)
        omega
      · exact hnd.sublist (List.dropLast_sublist s.buckets)

theorem cur_mem_buckets {B : Nat} {s : RecentState} (hInv : RInv B s) :
    s.cur ∈ s.buckets :=
  List.mem_of_mem_head? (by rw [hInv.2.1]; exact rfl)

theorem ws_ne_cur {B : Nat} {s : RecentState} (hInv : RInv B s) :
    s.ws ≠ s.cur :=
  fun hc => hInv.2.2.2.2.2.1 (hc ▸ cur_mem_buckets hInv)

theorem RInv_seenInsert {B : Nat} {s : RecentState} (x : String)
    (hInv : RInv B s) : RInv B (seenInsert s x) := by
  obtain ⟨hlen, hhead, hwsu, hwsv, hbv, hwsn, hnd⟩ := hInv
  have hcur : s.cur ∈ s.buckets := cur_mem_buckets ⟨hlen, hhead, hwsu, hwsv, hbv, hwsn, hnd⟩
  have hnc : s.ws ≠ s.cur := ws_ne_cur ⟨hlen, hhead, hwsu, hwsv, hbv, hwsn, hnd⟩
  have hcv : s.cur < s.store.length := hbv _ hcur
  refine ⟨by rw [seenInsert_buckets]; exact hlen, ?_, ?_, ?_, ?_, ?_, ?_⟩
  · rw [seenInsert_buckets, seenInsert_cur]
    exact hhead
  · rw [seenInsert_ws, getSet_seenInsert_ws s x hnc hwsv, hwsu]
    apply Finset.ext
    intro y
    rw [mem_bucketsUnion]
    simp only [seenInsert_buckets]
    rw [Finset.mem_insert, mem_bucketsUnion]
    constructor
    · rintro (hyx | ⟨r, hr, hy⟩)
      · refine ⟨s.cur, hcur, ?_⟩
        rw [getSet_seenInsert_cur s x hnc hcv, hyx]
        exact Finset.mem_insert_self x _
      · by_cases hrc : s.cur = r
        · subst hrc
          refine ⟨s.cur, hcur, ?_⟩
          rw [getSet_seenInsert_cur s x hnc hcv]
          exact Finset.mem_insert_of_mem hy
        · refine ⟨r, hr, ?_⟩
          rw [getSet_seenInsert_other s x r (fun hc => hwsn (hc ▸ hr)) hrc]
          exact hy
    · rintro ⟨r, hr, hy⟩
      by_cases hrc : s.cur = r
      · subst hrc
        rw [getSet_seenInsert_cur s x hnc hcv, Finset.mem_insert] at hy
        rcases hy with rfl | hy
        · exact Or.inl rfl
        · exact Or.inr ⟨s.cur, hcur, hy⟩
      · rw [getSet_seenInsert_other s x r (fun hc => hwsn (hc ▸ hr)) hrc] at hy
        exact Or.inr ⟨r, hr, hy⟩
  · rw [seenInsert_ws, seenInsert_store_length]
    exact hwsv
  · intro r hr
    rw [seenInsert_buckets] at hr
    rw [seenInsert_store_length]
    exact hbv r hr
  · rw [seenInsert_ws, seenInsert_buckets]
    exact hwsn
  · rw [seenInsert_buckets]
    exact hnd

theorem RInv_seen {B : Nat} {s : RecentState} (x : String) (now : Int)
    (hInv : RInv B s) : RInv B ((seen s x now).1) := by
  rw [seen_eq]
  by_cases hmem : x ∈ getSet (checkFrequency s now) (checkFrequency s now).ws
  · rw [if_pos hmem]
    exact RInv_checkFrequency now hInv
  · rw [if_neg hmem]
    exact RInv_seenInsert x (RInv_checkFrequency now hInv)

/-- C10: for a cache built with B buckets (B at least 1), the invariant
"exactly B buckets, current is the object referenced by buckets[0], and the
working set equals the union of all buckets" holds after init and is
preserved by every seen call; consequently the membership test in seen is
equivalent to membership in some bucket. -/
theorem claim_C10 (B : Nat) (cycle : Int) (frequency : Nat) (t0 : Int) :
    (1 ≤ B → RInv B (Recent.init cycle B frequency t0)) ∧
    (∀ (s : RecentState) (x : String) (now : Int),
      RInv B s → RInv B ((seen s x now).1)) ∧
    (∀ s : RecentState, RInv B s →
      ∀ x, x ∈ getSet s s.ws ↔ ∃ r ∈ s.buckets, x ∈ getSet s r) := by
  refine ⟨fun hB => RInv_init cycle B frequency t0 hB,
    fun s x now hInv => RInv_seen x now hInv, ?_⟩
  intro s hInv x
  rw [hInv.2.2.1]
  exact mem_bucketsUnion

theorem claim_C10_witness :
    RInv 3 (Recent.init 30 3 10 0) ∧
      RInv 3 ((seen (Recent.init 30 3 10 0) "k" 0).1) := by
  constructor
  · exact (claim_C10 3 30 10 0).1 (by decide)
  · exact (claim_C10 3 30 10 0).2.1 (Recent.init 30 3 10 0) "k" 0
      (by unfold RInv; decide)

/-! ## Recent cache: key aging (claim C3) -/

theorem list_get_mem {α : Type} {l : List α} {i : Nat} {a : α}
    (h : l[i]? = some a) : a ∈ l := by
  induction l generalizing i with
  | nil => simp at h
  | cons x xs ih =>
    cases i with
    | zero =>
      rw [List.getElem?_cons_zero] at h
      injection h with h2
      rw [← h2]
      exact List.mem_cons_self x xs
    | succ j =>
      rw [List.getElem?_cons_succ] at h
      exact List.mem_cons_of_mem _ (ih h)

theorem list_mem_get {α : Type} {l : List α} {a : α} (h : a ∈ l) :
    ∃ i : Nat, l[i]? = some a := by
  induction l with
  | nil => simp at h
  | cons x xs ih =>
    rcases List.mem_cons.mp h with rfl | h2
    · exact ⟨0, List.getElem?_cons_zero⟩
    · obtain ⟨i, hi⟩ := ih h2
      refine ⟨i + 1, ?_⟩
      rw [List.getElem?_cons_succ]
      exact hi

theorem list_get_some_lt {α : Type} {l : List α} {i : Nat} {a : α}
    (h : l[i]? = some a) : i < l.length := by
  induction l generalizing i with
  | nil => simp at h
  | cons x xs ih =>
    cases i with
    | zero => simp
    | succ j =>
      rw [List.getElem?_cons_succ] at h
      simp only [List.length_cons, Nat.succ_lt_succ_iff]
      exact ih h

theorem list_get_dropLast {α : Type} {l : List α} {i : Nat}
    (h : i + 1 < l.length) : l.dropLast[i]? = l[i]? := by
  induction l generalizing i with
  | nil => simp at h
  | cons x xs ih =>
    cases xs with
    | nil => simp at h
    | cons y t =>
      rw [List.dropLast_cons₂]
      cases i with
      | zero => rw [List.getElem?_cons_zero, List.getElem?_cons_zero]
      | succ j =>
        have h2 : j + 1 < (y :: t).length := by
          simpa [Nat.succ_lt_succ_iff] using h
        rw [List.getElem?_cons_succ, List.getElem?_cons_succ]
        exact ih h2

theorem list_nodup_get_inj {α : Type} {l : List α} (hnd : l.Nodup)
    {i j : Nat} {a : α} (hi : l[i]? = some a) (hj : l[j]? = some a) :
    i = j := by
  induction l generalizing i j with
  | nil => simp at hi
  | cons x xs ih =>
    simp only [List.nodup_cons] at hnd
    cases i with
    | zero =>
      cases j with
      | zero => rfl
      | succ j2 =>
        simp only [List.getElem?_cons_zero] at hi
        injection hi with hi2
        have : a ∈ xs := list_get_mem (by simpa using hj)
        exact absurd (hi2 ▸ this) hnd.1
    | succ i2 =>
      cases j with
      | zero =>
        simp only [List.getElem?_cons_zero] at hj
        injection hj with hj2
        have : a ∈ xs := list_get_mem (by simpa using hi)
        exact absurd (hj2 ▸ this) hnd.1
      | succ j2 =>
        have := ih hnd.2 (i := i2) (j := j2) (by simpa using hi)
          (by simpa using hj)
        omega

/-- The key is not in the working set (and hence, under RInv, in no bucket). -/
def Absent (s : RecentState) (k : String) : Prop :=
  k ∉ getSet s s.ws

/-- The key is in the working set and in exactly the bucket at index j
(newest bucket first). -/
def AtPos (s : RecentState) (k : String) (j : Nat) : Prop :=
  k ∈ getSet s s.ws ∧
  ∀ i r, s.buckets[i]? = some r → (k ∈ getSet s r ↔ i = j)

theorem atpos_exists {s : RecentState} {k : String} {j : Nat} {B : Nat}
    (hInv : RInv B s) (hat : AtPos s k j) :
    ∃ r, s.buckets[j]? = some r ∧ k ∈ getSet s r := by
  obtain ⟨hmem, hpos⟩ := hat
  rw [hInv.2.2.1, mem_bucketsUnion] at hmem
  obtain ⟨r, hr, hkr⟩ := hmem
  obtain ⟨i, hi⟩ := list_mem_get hr
  have := (hpos i r hi).mp hkr
  subst this
  exact ⟨r, hi, hkr⟩

theorem rotState_ws (s : RecentState) (now : Int) :
    (rotState s now).ws = s.store.length := rfl

theorem rotState_buckets (s : RecentState) (now : Int) :
    (rotState s now).buckets = (s.store.length + 1) :: s.buckets.dropLast := rfl

theorem getSet_rotState_ws (s : RecentState) (now : Int) :
    getSet (rotState s now) (s.store.length) =
      (s.buckets.dropLast).foldl (fun acc r => acc ∪ getSet s r) ∅ := by
  unfold rotState getSet
  simp only
  exact list_getD_append_first _ _ _ _

theorem getSet_rotState_fresh (s : RecentState) (now : Int) :
    getSet (rotState s now) (s.store.length + 1) = ∅ := by
  unfold rotState getSet
  simp only
  exact list_getD_append_second _ _ _ _

theorem getSet_rotState_old (s : RecentState) (now : Int) {r : Nat}
    (h : r < s.store.length) : getSet (rotState s now) r = getSet s r := by
  unfold rotState getSet
  simp only
  exact list_getD_append_left _ _ _ _ h

theorem absent_cf {B : Nat} {s : RecentState} {k : String} (now : Int)
    (hInv : RInv B s) (hab : Absent s k) :
    Absent (checkFrequency s now) k := by
  cases hrot : rotates s now with
  | false =>
    rw [checkFrequency_eq_nonrot hrot]
    exact hab
  | true =>
    rw [checkFrequency_eq_rot hrot]
    unfold Absent
    rw [rotState_ws, getSet_rotState_ws]
    intro hk
    rw [mem_foldl_union] at hk
    rcases hk with hk | ⟨r, hr, hkr⟩
    · exact absurd hk (Finset.not_mem_empty k)
    · apply hab
      rw [hInv.2.2.1, mem_bucketsUnion]
      exact ⟨r, (List.dropLast_sublist s.buckets).subset hr, hkr⟩

theorem atpos_cf_rot {B : Nat} {s : RecentState} {k : String} {j : Nat}
    (now : Int) (hInv : RInv B s) (hrot : rotates s now = true)
    (hat : AtPos s k j) :
    (j + 1 < B → AtPos (checkFrequency s now) k (j + 1)) ∧
    (B ≤ j + 1 → Absent (checkFrequency s now) k) := by
  obtain ⟨rj, hrj, hkrj⟩ := atpos_exists hInv hat
  have hjB : j < B := by
    have := list_get_some_lt hrj
    rw [hInv.1] at this
    exact this
  have hlenB : s.buckets.length = B := hInv.1
  rw [checkFrequency_eq_rot hrot]
  constructor
  · intro hjlt
    constructor
    · rw [rotState_ws, getSet_rotState_ws, mem_foldl_union]
      refine Or.inr ⟨rj, ?_, hkrj⟩
      apply list_get_mem (i := j)
      rw [list_get_dropLast (by omega)]
      exact hrj
    · intro i r hir
      rw [rotState_buckets] at hir
      cases i with
      | zero =>
        rw [List.getElem?_cons_zero] at hir
        injection hir with hir2
        rw [← hir2, getSet_rotState_fresh]
        simp
      | succ i2 =>
        rw [List.getElem?_cons_succ] at hir
        have hi2len : i2 < s.buckets.dropLast.length := list_get_some_lt hir
        rw [List.length_dropLast] at hi2len
        rw [list_get_dropLast (by omega)] at hir
        have hrmem : r ∈ s.buckets := list_get_mem hir
        have hrlt : r < s.store.length := hInv.2.2.2.2.1 r hrmem
        rw [getSet_rotState_old s now hrlt]
        rw [hat.2 i2 r hir]
        omega
  · intro hge
    unfold Absent
    rw [rotState_ws, getSet_rotState_ws]
    intro hk
    rw [mem_foldl_union] at hk
    rcases hk with hk | ⟨r, hr, hkr⟩
    · exact absurd hk (Finset.not_mem_empty k)
    · obtain ⟨i, hi⟩ := list_mem_get hr
      have hilen : i < s.buckets.dropLast.length := list_get_some_lt hi
      rw [List.length_dropLast] at hilen
      rw [list_get_dropLast (by omega)] at hi
      have := (hat.2 i r hi).mp hkr
      omega

theorem atpos_cf_nonrot {s : RecentState} {k : String} {j : Nat} {now : Int}
    (hrot : rotates s now = false) (hat : AtPos s k j) :
    AtPos (checkFrequency s now) k j := by
  rw [checkFrequency_eq_nonrot hrot]
  exact hat

theorem absent_seenInsert {B : Nat} {s : RecentState} {k k2 : String}
    (hInv : RInv B s) (hne : k2 ≠ k) (hab : Absent s k) :
    Absent (seenInsert s k2) k := by
  unfold Absent
  rw [seenInsert_ws, getSet_seenInsert_ws s k2 (ws_ne_cur hInv) hInv.2.2.2.1]
  rw [Finset.mem_insert]
  rintro (rfl | hk)
  · exact hne rfl
  · exact hab hk

theorem atpos_seenInsert {B : Nat} {s : RecentState} {k k2 : String} {j : Nat}
    (hInv : RInv B s) (hne : k2 ≠ k) (hat : AtPos s k j) :
    AtPos (seenInsert s k2) k j := by
  have hnc := ws_ne_cur hInv
  have hcv : s.cur < s.store.length := hInv.2.2.2.2.1 _ (cur_mem_buckets hInv)
  constructor
  · rw [seenInsert_ws, getSet_seenInsert_ws s k2 hnc hInv.2.2.2.1]
    exact Finset.mem_insert_of_mem hat.1
  · intro i r hir
    rw [seenInsert_buckets] at hir
    have hrmem : r ∈ s.buckets := list_get_mem hir
    have hwr : s.ws ≠ r := fun hc => hInv.2.2.2.2.2.1 (hc ▸ hrmem)
    by_cases hcr : s.cur = r
    · subst hcr
      rw [getSet_seenInsert_cur s k2 hnc hcv, Finset.mem_insert]
      rw [← hat.2 i s.cur hir]
      constructor
      · rintro (rfl | hk)
        · exact absurd rfl hne
        · exact hk
      · exact Or.inr
    · rw [getSet_seenInsert_other s k2 r hwr hcr]
      exact hat.2 i r hir

/-- Effect of one seen call with a key other than k on k's status. -/
theorem seen_step_other {B : Nat} {s : RecentState} {k k2 : String}
    (now : Int) (hInv : RInv B s) (hne : k2 ≠ k) :
    (Absent s k → Absent ((seen s k2 now).1) k) ∧
    (∀ j, AtPos s k j →
      if rotates s now then
        (if j + 1 < B then AtPos ((seen s k2 now).1) k (j + 1)
         else Absent ((seen s k2 now).1) k)
      else AtPos ((seen s k2 now).1) k j) := by
  have hInv1 := RInv_checkFrequency now hInv
  rw [seen_eq]
  by_cases hmem : k2 ∈ getSet (checkFrequency s now) (checkFrequency s now).ws
  · rw [if_pos hmem]
    constructor
    · intro hab
      exact absent_cf now hInv hab
    · intro j hat
      cases hrot : rotates s now with
      | false =>
        simp only [if_false, Bool.false_eq_true]
        exact atpos_cf_nonrot hrot hat
      | true =>
        simp only [if_true]
        by_cases hj : j + 1 < B
        · rw [if_pos hj]
          exact (atpos_cf_rot now hInv hrot hat).1 hj
        · rw [if_neg hj]
          exact (atpos_cf_rot now hInv hrot hat).2 (by omega)
  · rw [if_neg hmem]
    constructor
    · intro hab
      exact absent_seenInsert hInv1 hne (absent_cf now hInv hab)
    · intro j hat
      cases hrot : rotates s now with
      | false =>
        simp only [if_false, Bool.false_eq_true]
        exact atpos_seenInsert hInv1 hne (atpos_cf_nonrot hrot hat)
      | true =>
        simp only [if_true]
        by_cases hj : j + 1 < B
        · rw [if_pos hj]
          exact atpos_seenInsert hInv1 hne
            ((atpos_cf_rot now hInv hrot hat).1 hj)
        · rw [if_neg hj]
          exact absent_seenInsert hInv1 hne
            ((atpos_cf_rot now hInv hrot hat).2 (by omega))

/-- A seen call that returns false establishes the invariant and places the
key in the current (index 0) bucket. -/
theorem seen_false_inv {B : Nat} {s : RecentState} {k : String} {now : Int}
    (hInv : RInv B s) (hf : (seen s k now).2 = false) :
    RInv B ((seen s k now).1) ∧ AtPos ((seen s k now).1) k 0 := by
  have hInv1 := RInv_checkFrequency now hInv
  rw [seen_eq] at hf ⊢
  by_cases hmem : k ∈ getSet (checkFrequency s now) (checkFrequency s now).ws
  · rw [if_pos hmem] at hf
    exact absurd hf (by simp)
  · rw [if_neg hmem] at hf ⊢
    set s1 := checkFrequency s now with hs1
    refine ⟨RInv_seenInsert k hInv1, ?_, ?_⟩
    · rw [seenInsert_ws,
        getSet_seenInsert_ws s1 k (ws_ne_cur hInv1) hInv1.2.2.2.1]
      exact Finset.mem_insert_self k _
    · intro i r hir
      rw [seenInsert_buckets] at hir
      have hnc := ws_ne_cur hInv1
      have hcv : s1.cur < s1.store.length :=
        hInv1.2.2.2.2.1 _ (cur_mem_buckets hInv1)
      have hb0 : s1.buckets[0]? = some s1.cur := by
        rw [← List.head?_eq_getElem?]
        exact hInv1.2.1
      by_cases hcr : s1.cur = r
      · subst hcr
        have : i = 0 := list_nodup_get_inj hInv1.2.2.2.2.2.2 hir hb0
        subst this
        rw [getSet_seenInsert_cur s1 k hnc hcv]
        simp
      · have hi0 : ¬ i = 0 := by
          intro hc
          subst hc
          rw [hir] at hb0
          injection hb0 with hb2
          exact hcr hb2.symm
        have hrmem : r ∈ s1.buckets := list_get_mem hir
        have hwr : s1.ws ≠ r := fun hc => hInv1.2.2.2.2.2.1 (hc ▸ hrmem)
        rw [getSet_seenInsert_other s1 k r hwr hcr]
        simp only [hi0, iff_false]
        intro hk
        apply hmem
        rw [hInv1.2.2.1, mem_bucketsUnion]
        exact ⟨r, hrmem, hk⟩

theorem seen_false_of_absent {B : Nat} {s : RecentState} {k : String}
    (now : Int) (hInv : RInv B s) (hab : Absent s k) :
    (seen s k now).2 = false := by
  rw [seen_eq]
  rw [if_neg (absent_cf now hInv hab)]

theorem seen_true_of_atpos0 {B : Nat} {s : RecentState} {k : String}
    (now : Int) (hB : 2 ≤ B) (hInv : RInv B s) (hat : AtPos s k 0) :
    (seen s k now).2 = true := by
  rw [seen_eq]
  have hmem : k ∈ getSet (checkFrequency s now) (checkFrequency s now).ws := by
    cases hrot : rotates s now with
    | false => exact (atpos_cf_nonrot hrot hat).1
    | true => exact ((atpos_cf_rot now hInv hrot hat).1 (by omega)).1
  rw [if_pos hmem]

/-- Running a list of seen calls (thing, now) in order. -/
def execSeen : RecentState → List (String × Int) → RecentState
  | s, [] => s
  | s, p :: rest => execSeen ((seen s p.1 p.2).1) rest

/-- The number of calls in the trace that trigger a rotation. -/
def rotCount : RecentState → List (String × Int) → Nat
  | _, [] => 0
  | s, p :: rest =>
    (if rotates s p.2 then 1 else 0) + rotCount ((seen s p.1 p.2).1) rest

theorem trace_absent {B : Nat} {k : String} (tr : List (String × Int)) :
    ∀ s : RecentState, RInv B s → Absent s k → (∀ p ∈ tr, p.1 ≠ k) →
      RInv B (execSeen s tr) ∧ Absent (execSeen s tr) k := by
  induction tr with
  | nil => exact fun s h1 h2 _ => ⟨h1, h2⟩
  | cons p rest ih =>
    intro s h1 h2 h3
    have hne : p.1 ≠ k := h3 p (List.mem_cons_self p rest)
    exact ih _ (RInv_seen p.1 p.2 h1) ((seen_step_other p.2 h1 hne).1 h2)
      (fun q hq => h3 q (List.mem_cons_of_mem _ hq))

theorem trace_atpos {B : Nat} {k : String} (tr : List (String × Int)) :
    ∀ (s : RecentState) (j : Nat), RInv B s → AtPos s k j →
      (∀ p ∈ tr, p.1 ≠ k) →
      RInv B (execSeen s tr) ∧
        (if j + rotCount s tr < B then
          AtPos (execSeen s tr) k (j + rotCount s tr)
         else Absent (execSeen s tr) k) := by
  induction tr with
  | nil =>
    intro s j h1 h2 _
    have hj : j < B := by
      obtain ⟨r, hr, -⟩ := atpos_exists h1 h2
      have := list_get_some_lt hr
      rw [h1.1] at this
      exact this
    simp only [execSeen, rotCount, Nat.add_zero]
    rw [if_pos hj]
    exact ⟨h1, h2⟩
  | cons p rest ih =>
    intro s j h1 h2 h3
    have hne : p.1 ≠ k := h3 p (List.mem_cons_self p rest)
    have hinv2 := RInv_seen p.1 p.2 h1
    have hstep := (seen_step_other p.2 h1 hne).2 j h2
    have h3r : ∀ q ∈ rest, q.1 ≠ k :=
      fun q hq => h3 q (List.mem_cons_of_mem _ hq)
    cases hrot : rotates s p.2 with
    | false =>
      rw [hrot] at hstep
      simp only [if_false, Bool.false_eq_true] at hstep
      have := ih _ j hinv2 hstep h3r
      simpa [execSeen, rotCount, hrot] using this
    | true =>
      rw [hrot] at hstep
      simp only [if_true] at hstep
      by_cases hj : j + 1 < B
      · rw [if_pos hj] at hstep
        have := ih _ (j + 1) hinv2 hstep h3r
        have harith : j + 1 + rotCount ((seen s p.1 p.2).1) rest =
            j + rotCount s (p :: rest) := by
          simp only [rotCount, hrot, if_true]
          omega
        rw [harith] at this
        simpa [execSeen] using this
      · rw [if_neg hj] at hstep
        have := trace_absent rest _ hinv2 hstep h3r
        have hcond : ¬ j + rotCount s (p :: rest) < B := by
          simp only [rotCount, hrot, if_true]
          omega
        simp only [execSeen]
        rw [if_neg hcond]
        exact this

/-- C3: from any state satisfying the cache invariant, two immediately
successive seen(k) calls answer false then true (for caches with at least
two buckets, as the deployed default of three); and once a seen(k) call has
answered false, if B rotations happen across later calls that never present
k, the next seen(k) call answers false again. -/
theorem claim_C3 :
    (∀ (B : Nat) (s : RecentState) (k : String) (n1 n2 : Int),
      2 ≤ B → RInv B s → (seen s k n1).2 = false →
      (seen ((seen s k n1).1) k n2).2 = true) ∧
    (∀ (B : Nat) (s : RecentState) (k : String) (n0 nf : Int)
        (tr : List (String × Int)),
      RInv B s → (seen s k n0).2 = false →
      (∀ p ∈ tr, p.1 ≠ k) →
      rotCount ((seen s k n0).1) tr = B →
      (seen (execSeen ((seen s k n0).1) tr) k nf).2 = false) := by
  constructor
  · intro B s k n1 n2 hB hInv hf
    obtain ⟨hInv1, hat0⟩ := seen_false_inv hInv hf
    exact seen_true_of_atpos0 n2 hB hInv1 hat0
  · intro B s k n0 nf tr hInv hf hall hcount
    obtain ⟨hInv1, hat0⟩ := seen_false_inv hInv hf
    obtain ⟨hInvF, hstatus⟩ := trace_atpos tr ((seen s k n0).1) 0 hInv1 hat0 hall
    rw [hcount] at hstatus
    rw [if_neg (by omega)] at hstatus
    exact seen_false_of_absent nf hInvF hstatus

/-- A three-bucket cache with frequency 1 and cycle 0 rotates on every call:
after seen("k") answered false, three calls with other keys rotate three
times and a fourth seen("k") answers false again, while an immediate second
call answers true. -/
def c3s0 : RecentState := Recent.init 0 3 1 0

theorem claim_C3_witness :
    (seen ((seen c3s0 "k" 0).1) "k" 0).2 = true ∧
    (seen (execSeen ((seen c3s0 "k" 0).1) [("a", 0), ("b", 0), ("c", 0)])
      "k" 0).2 = false := by
  constructor
  · exact claim_C3.1 3 c3s0 "k" 0 0 (by omega) (by unfold RInv; decide)
      (by decide)
  · exact claim_C3.2 3 c3s0 "k" 0 0 [("a", 0), ("b", 0), ("c", 0)]
      (by unfold RInv; decide) (by decide) (by decide) (by decide)

/-! ## Merge on the object heap (claim C8)

The merge loop instrumented with object identity at both levels that matter
in the source: artifact objects live in a store addressed by references, and
the metadata SET objects live in a second store of their own, because they
are shared between objects.  metadata_for (database.py line 71) returns the
stored set object itself when self has a metadata dict; copy (lines 189,
325, 393) builds the new object's metadata dict out of exactly those
objects; and the loop's merged[k].metadata[t] |= item.metadata_for(t)
(lines 181, 316, 384) is an in-place set union on the dict entry's object.
So a copy of a metadata-bearing artifact shares its metadata sets with its
source, and folding a same-identity item into that dict entry mutates the
source's sets.  The final onames_as_list pass rewrites each merged DNS
object's onames in place; the modelled set state is already its own
enumeration, so that write stores back the value the object already has and
is omitted. -/

theorem list_get_append_left {α : Type} (l l2 : List α) (i : Nat)
    (h : i < l.length) : (l ++ l2)[i]? = l[i]? := by
  induction l generalizing i with
  | nil => simp at h
  | cons x xs ih =>
    cases i with
    | zero => simp
    | succ j =>
      simp only [List.length_cons, Nat.succ_lt_succ_iff] at h
      simp only [List.cons_append, List.getElem?_cons_succ]
      exact ih j h

theorem list_get_set_ne {α : Type} (l : List α) (i j : Nat) (x : α)
    (h : i ≠ j) : (l.set i x)[j]? = l[j]? := by
  induction l generalizing i j with
  | nil => simp [List.set]
  | cons y ys ih =>
    cases i with
    | zero =>
      cases j with
      | zero => exact absurd rfl h
      | succ j2 => rfl
    | succ i2 =>
      cases j with
      | zero => simp [List.set_cons_succ]
      | succ j2 =>
        rw [List.set_cons_succ, List.getElem?_cons_succ,
          List.getElem?_cons_succ]
        exact ih i2 j2 (fun hc => h (by rw [hc]))

/-- A metadata dict at the object level: per metadata key, the reference of
the set object stored under it (none when the key is absent).  The dict
itself is freshly built by copy and reversed, so it needs no identity of its
own; the set objects it points to do. -/
structure MetaRefs where
  rtargets : Option Nat
  rclients : Option Nat
  rtypes : Option Nat
  rports : Option Nat
deriving DecidableEq

namespace MetaRefs

def empty : MetaRefs := ⟨none, none, none, none⟩

def get (m : MetaRefs) : MType → Option Nat
  | .targets => m.rtargets
  | .clients => m.rclients
  | .types => m.rtypes
  | .ports => m.rports

def setR (m : MetaRefs) (t : MType) (r : Nat) : MetaRefs :=
  match t with
  | .targets => { m with rtargets := some r }
  | .clients => { m with rclients := some r }
  | .types => { m with rtypes := some r }
  | .ports => { m with rports := some r }

end MetaRefs

/-- A Netflow-family artifact object: plain attributes by value, the
metadata dict as references into the set-object store. -/
structure NFObj where
  client_address : String
  remote_address : String
  remote_port : String
  count : Int
  tag : NFTag
  mdtypesOverride : Option (List MType)
  metadata : Option MetaRefs
deriving DecidableEq

namespace NFObj

def mdtypes (a : NFObj) : List MType :=
  a.mdtypesOverride.getD NetflowArtifact.classMdtypes

def metadataFOR (t : MType) (a : NFObj) : String :=
  match t with
  | .targets => a.client_address
  | .clients => a.client_address
  | .types => a.tag.typeName
  | .ports => a.remote_port

/-- metadata_for at the object level (database.py lines 64-75): with a
metadata dict present it returns the STORED set object (dict.get allocates a
fresh empty set only for an absent key); without one it allocates a fresh
singleton or empty set. -/
def mdForRef (σ : List (Finset String)) (a : NFObj) (t : MType) :
    List (Finset String) × Nat :=
  match a.metadata with
  | some m =>
    match m.get t with
    | some r => (σ, r)
    | none => (σ ++ [∅], σ.length)
  | none =>
    (σ ++ [if t ∈ a.mdtypes then {metadataFOR t a} else ∅], σ.length)

def key (a : NFObj) : String :=
  a.remote_address ++ "+" ++ a.remote_port

/-- NetflowArtifact.copy at the object level (database.py lines 387-394):
fresh artifact object and fresh metadata dict, whose entries are whatever
objects metadata_for returns -- the source's own set objects when the
source has a metadata dict.  METADATA_TYPES is iterated in a fixed order
(Python set order is unspecified). -/
def copyRef (σ : List (Finset String)) (a : NFObj) :
    List (Finset String) × NFObj :=
  let res := a.mdtypes.foldl
    (fun acc t =>
      let r := mdForRef acc.1 a t
      (r.1, acc.2.setR t r.2))
    (σ, MetaRefs.empty)
  (res.1,
    { client_address := a.client_address
      remote_address := a.remote_address
      remote_port := a.remote_port
      count := a.count
      tag := a.tag
      mdtypesOverride := none
      metadata := some res.2 })

/-- The already-present-key loop body at the object level (database.py lines
380-384): rebind client_address and count on the dict entry's object, then
for each of the item's metadata types union the item's contribution into the
dict entry's set object IN PLACE (d[t] |= x reads d[t], mutates that object
and stores the same reference back).  An absent key would raise KeyError in
Python; same-class inputs always have it present, so it is modelled as a
no-op. -/
def updRef (target : Option (List String)) (σ : List (Finset String))
    (acc item : NFObj) : List (Finset String) × NFObj :=
  let acc1 := if isTargeted target item.client_address then
    { acc with client_address := item.client_address } else acc
  let acc2 := { acc1 with count := acc1.count + item.count }
  let σ2 := item.mdtypes.foldl
    (fun σc t =>
      match acc2.metadata with
      | some m =>
        match m.get t with
        | some rT =>
          let ri := mdForRef σc item t
          ri.1.set rT ((ri.1.getD rT ∅) ∪ (ri.1.getD ri.2 ∅))
        | none => σc
      | none => σc)
    σ
  (σ2, acc2)

end NFObj

/-- A DNS artifact object; onames is never shared (copy(set) and set(...)
always build fresh sets for it), so it stays a value. -/
structure DNSObj where
  client_address : String
  remote_address : String
  onames : List String
  metadata : Option MetaRefs
deriving DecidableEq

namespace DNSObj

def metadataFOR (t : MType) (a : DNSObj) : String :=
  match t with
  | .targets => a.client_address
  | .clients => a.client_address
  | .types => "DNS"
  | .ports => ""

/-- metadata_for at the object level; METADATA_TYPES = clients, types. -/
def mdForRef (σ : List (Finset String)) (a : DNSObj) (t : MType) :
    List (Finset String) × Nat :=
  match a.metadata with
  | some m =>
    match m.get t with
    | some r => (σ, r)
    | none => (σ ++ [∅], σ.length)
  | none =>
    (σ ++ [if t ∈ DNSArtifact.classMdtypes then {metadataFOR t a} else ∅],
      σ.length)

def key (a : DNSObj) : String := a.remote_address

/-- DNSArtifact.copy with onames_type=set at the object level (database.py
lines 184-190): fresh object, fresh onames set, and a metadata dict built
from the objects metadata_for returns. -/
def copyRef (σ : List (Finset String)) (a : DNSObj) :
    List (Finset String) × DNSObj :=
  let res := DNSArtifact.classMdtypes.foldl
    (fun acc t =>
      let r := mdForRef acc.1 a t
      (r.1, acc.2.setR t r.2))
    (σ, MetaRefs.empty)
  (res.1,
    { client_address := a.client_address
      remote_address := a.remote_address
      onames := a.onames.dedup
      metadata := some res.2 })

/-- The already-present-key loop body at the object level (database.py lines
177-181): client overwrite, onames union into the entry's own fresh set, and
the in-place metadata set unions. -/
def updRef (target : Option (List String)) (σ : List (Finset String))
    (acc item : DNSObj) : List (Finset String) × DNSObj :=
  let acc1 := if isTargeted target item.client_address then
    { acc with client_address := item.client_address } else acc
  let acc2 := { acc1 with onames := acc1.onames ∪ item.onames }
  let σ2 := DNSArtifact.classMdtypes.foldl
    (fun σc t =>
      match acc2.metadata with
      | some m =>
        match m.get t with
        | some rT =>
          let ri := mdForRef σc item t
          ri.1.set rT ((ri.1.getD rT ∅) ∪ (ri.1.getD ri.2 ∅))
        | none => σc
      | none => σc)
    σ
  (σ2, acc2)

end DNSObj

def nfObjDflt : NFObj :=
  { client_address := "", remote_address := "", remote_port := ""
    count := 0, tag := .flow, mdtypesOverride := none, metadata := none }

def dnsObjDflt : DNSObj :=
  { client_address := "", remote_address := "", onames := []
    metadata := none }

/-- The merge loop over the two object stores: artifact objects in `store`,
metadata set objects in `σ`, inputs given as references `refs` into `store`.
A key not yet in the dict allocates a copy at the end of the store; a key
already present mutates the dict entry's object in place and lets the
update step write through to the (possibly shared) set objects. -/
def refMergeLoop2 {V : Type} (keyV : V → String)
    (copyF : List (Finset String) → V → List (Finset String) × V)
    (updF : List (Finset String) → V → V → List (Finset String) × V)
    (dflt : V) :
    List (String × Nat) → List V → List (Finset String) → List Nat →
    List (String × Nat) × List V × List (Finset String)
  | assoc, store, σ, [] => (assoc, store, σ)
  | assoc, store, σ, r :: rs =>
    match alookup (keyV (store.getD r dflt)) assoc with
    | none =>
      refMergeLoop2 keyV copyF updF dflt
        (assoc ++ [(keyV (store.getD r dflt), store.length)])
        (store ++ [(copyF σ (store.getD r dflt)).2])
        (copyF σ (store.getD r dflt)).1 rs
    | some rM =>
      refMergeLoop2 keyV copyF updF dflt assoc
        (store.set rM (updF σ (store.getD rM dflt) (store.getD r dflt)).2)
        (updF σ (store.getD rM dflt) (store.getD r dflt)).1 rs

/-- merge at the object level: none on an empty input list (items.pop()
would raise IndexError); otherwise the final stores together with the
references of the dict values in insertion order. -/
def refMerge2 {V : Type} (keyV : V → String)
    (copyF : List (Finset String) → V → List (Finset String) × V)
    (updF : List (Finset String) → V → V → List (Finset String) × V)
    (dflt : V) (store : List V) (σ : List (Finset String))
    (refs : List Nat) :
    Option (List V × List (Finset String) × List Nat) :=
  if refs.isEmpty then none
  else
    let res := refMergeLoop2 keyV copyF updF dflt [] store σ (foldOrder refs)
    some (res.2.1, res.2.2, res.1.map Prod.snd)

namespace NFRef

def merge (store : List NFObj) (σ : List (Finset String)) (refs : List Nat)
    (target : Option (List String)) :
    Option (List NFObj × List (Finset String) × List Nat) :=
  refMerge2 NFObj.key NFObj.copyRef (NFObj.updRef target) nfObjDflt
    store σ refs

end NFRef

namespace DNSRef

def merge (store : List DNSObj) (σ : List (Finset String)) (refs : List Nat)
    (target : Option (List String)) :
    Option (List DNSObj × List (Finset String) × List Nat) :=
  refMerge2 DNSObj.key DNSObj.copyRef (DNSObj.updRef target) dnsObjDflt
    store σ refs

end DNSRef

theorem refMergeLoop2_cons_none {V : Type} (keyV : V → String)
    (copyF : List (Finset String) → V → List (Finset String) × V)
    (updF : List (Finset String) → V → V → List (Finset String) × V)
    (dflt : V) (assoc : List (String × Nat)) (store : List V)
    (σ : List (Finset String)) (r : Nat) (rs : List Nat)
    (h : alookup (keyV (store.getD r dflt)) assoc = none) :
    refMergeLoop2 keyV copyF updF dflt assoc store σ (r :: rs) =
      refMergeLoop2 keyV copyF updF dflt
        (assoc ++ [(keyV (store.getD r dflt), store.length)])
        (store ++ [(copyF σ (store.getD r dflt)).2])
        (copyF σ (store.getD r dflt)).1 rs := by
  conv_lhs => unfold refMergeLoop2
  rw [h]

theorem refMergeLoop2_cons_some {V : Type} (keyV : V → String)
    (copyF : List (Finset String) → V → List (Finset String) × V)
    (updF : List (Finset String) → V → V → List (Finset String) × V)
    (dflt : V) (assoc : List (String × Nat)) (store : List V)
    (σ : List (Finset String)) (r : Nat) (rs : List Nat) (rM : Nat)
    (h : alookup (keyV (store.getD r dflt)) assoc = some rM) :
    refMergeLoop2 keyV copyF updF dflt assoc store σ (r :: rs) =
      refMergeLoop2 keyV copyF updF dflt assoc
        (store.set rM (updF σ (store.getD rM dflt) (store.getD r dflt)).2)
        (updF σ (store.getD rM dflt) (store.getD r dflt)).1 rs := by
  conv_lhs => unfold refMergeLoop2
  rw [h]

/-- Frame property of the loop on the artifact store: references below the
initial store length are never written (allocation appends, the in-place
update hits only dict-value objects, all allocated at or above the initial
length), the store only grows, and every dict value stays at or above the
initial length. -/
theorem refMergeLoop2_frame {V : Type} (keyV : V → String)
    (copyF : List (Finset String) → V → List (Finset String) × V)
    (updF : List (Finset String) → V → V → List (Finset String) × V)
    (dflt : V) (n : Nat) :
    ∀ (refs : List Nat) (assoc : List (String × Nat)) (store : List V)
      (σ : List (Finset String)),
      n ≤ store.length → (∀ p ∈ assoc, n ≤ p.2) →
      (∀ i, i < n →
        (refMergeLoop2 keyV copyF updF dflt assoc store σ refs).2.1[i]? =
          store[i]?) ∧
      n ≤ (refMergeLoop2 keyV copyF updF dflt assoc store σ refs).2.1.length ∧
      (∀ p ∈ (refMergeLoop2 keyV copyF updF dflt assoc store σ refs).1,
        n ≤ p.2) := by
  intro refs
  induction refs with
  | nil =>
    intro assoc store σ hn hassoc
    unfold refMergeLoop2
    exact ⟨fun i _ => rfl, hn, hassoc⟩
  | cons r rs ih =>
    intro assoc store σ hn hassoc
    cases halt : alookup (keyV (store.getD r dflt)) assoc with
    | none =>
      rw [refMergeLoop2_cons_none keyV copyF updF dflt assoc store σ r rs halt]
      have hassoc2 : ∀ p ∈ assoc ++ [(keyV (store.getD r dflt), store.length)],
          n ≤ p.2 := by
        intro p hp
        rcases List.mem_append.mp hp with hp1 | hp2
        · exact hassoc p hp1
        · simp only [List.mem_singleton] at hp2
          rw [hp2]
          exact hn
      have hn2 : n ≤ (store ++ [(copyF σ (store.getD r dflt)).2]).length := by
        rw [List.length_append]
        omega
      obtain ⟨h1, h2, h3⟩ := ih (assoc ++ [(keyV (store.getD r dflt), store.length)])
        (store ++ [(copyF σ (store.getD r dflt)).2])
        (copyF σ (store.getD r dflt)).1 hn2 hassoc2
      refine ⟨fun i hi => ?_, h2, h3⟩
      rw [h1 i hi]
      exact list_get_append_left store [(copyF σ (store.getD r dflt)).2] i
        (Nat.lt_of_lt_of_le hi hn)
    | some rM =>
      rw [refMergeLoop2_cons_some keyV copyF updF dflt assoc store σ r rs rM halt]
      have hrM : n ≤ rM := hassoc _ (alookup_some_mem halt)
      have hn2 : n ≤ (store.set rM
          (updF σ (store.getD rM dflt) (store.getD r dflt)).2).length := by
        rw [List.length_set]
        exact hn
      obtain ⟨h1, h2, h3⟩ := ih assoc
        (store.set rM (updF σ (store.getD rM dflt) (store.getD r dflt)).2)
        (updF σ (store.getD rM dflt) (store.getD r dflt)).1 hn2 hassoc
      refine ⟨fun i hi => ?_, h2, h3⟩
      rw [h1 i hi]
      exact list_get_set_ne store rM i _ (by omega)

theorem refMerge2_frame {V : Type} {keyV : V → String}
    {copyF : List (Finset String) → V → List (Finset String) × V}
    {updF : List (Finset String) → V → V → List (Finset String) × V}
    {dflt : V} {store store2 : List V} {σ σ2 : List (Finset String)}
    {refs out : List Nat}
    (h : refMerge2 keyV copyF updF dflt store σ refs =
      some (store2, σ2, out)) :
    (∀ i, i < store.length → store2[i]? = store[i]?) ∧
    (∀ r2 ∈ out, store.length ≤ r2) := by
  unfold refMerge2 at h
  by_cases he : refs.isEmpty
  · rw [if_pos he] at h
    exact absurd h (by simp)
  · rw [if_neg he] at h
    obtain ⟨h1, h2, h3⟩ := refMergeLoop2_frame keyV copyF updF dflt
      store.length (foldOrder refs) [] store σ le_rfl (by simp)
    injection h with hh
    injection hh with ha hb
    injection hb with hb1 hb2
    constructor
    · intro i hi
      rw [← ha]
      exact h1 i hi
    · intro r2 hr2
      rw [← hb2] at hr2
      obtain ⟨p, hp, hpr⟩ := List.mem_map.mp hr2
      rw [← hpr]
      exact h3 p hp

/-- The concrete inputs of the counterexample: a metadata-bearing Netflow
object whose clients/types/ports metadata sets live at set-store references
0, 1 and 2, and a raw Netflow object with the same identity. -/
def nfObjMd : NFObj :=
  { client_address := "10.0.0.9", remote_address := "198.51.100.7"
    remote_port := "443", count := 1, tag := .flow
    mdtypesOverride := none
    metadata := some ⟨none, some 0, some 1, some 2⟩ }

def nfObjRaw : NFObj :=
  { client_address := "10.0.0.5", remote_address := "198.51.100.7"
    remote_port := "443", count := 2, tag := .flow
    mdtypesOverride := none, metadata := none }

def c8Store : List NFObj := [nfObjRaw, nfObjMd]

def c8Sets : List (Finset String) := [{"10.0.0.9"}, {"Netflow"}, {"443"}]

def dnsObjW1 : DNSObj :=
  { client_address := "10.0.0.5", remote_address := "93.184.216.34"
    onames := ["www.example.com"], metadata := none }

def dnsObjW2 : DNSObj :=
  { client_address := "10.0.0.6", remote_address := "93.184.216.34"
    onames := ["example.net"], metadata := none }

def c8DnsStore : List DNSObj := [dnsObjW1, dnsObjW2]

def c8DnsRes : List DNSObj × List (Finset String) × List Nat :=
  (DNSRef.merge c8DnsStore [] [0, 1] none).getD ([], [], [])

def c8NfRes : List NFObj × List (Finset String) × List Nat :=
  (NFRef.merge c8Store c8Sets [0, 1] none).getD ([], [], [])

/-- C8 is refuted on its non-modification clause: merging a raw Netflow
artifact into a collection whose same-identity member bears a metadata dict
mutates that member's metadata set objects.  The seeding copy's metadata
dict holds the very set objects stored in the input (metadata_for,
database.py line 71, returns the stored set; copy, line 393, puts it in the
new dict), and the loop's merged[k].metadata[t] |= item.metadata_for(t)
(line 384; DNS analogue line 181) unions into that shared object in place:
here the input's clients set at reference 0 changes from {10.0.0.9} to
{10.0.0.9, 10.0.0.5}. -/
theorem claim_C8_counterexample :
    (c8Store.getD 1 nfObjDflt).metadata =
      some ⟨none, some 0, some 1, some 2⟩ ∧
    c8Sets.getD 0 ∅ = {"10.0.0.9"} ∧
    (NFRef.merge c8Store c8Sets [0, 1] none).isSome = true ∧
    c8NfRes.2.1.getD 0 ∅ = {"10.0.0.9", "10.0.0.5"} ∧
    c8NfRes.2.1.getD 0 ∅ ≠ c8Sets.getD 0 ∅ := by
  refine ⟨rfl, rfl, rfl, by decide, by decide⟩

/-- C8 (amended): merge never rebinds an attribute of any input artifact
object and returns only fresh artifact objects.  For both DNSArtifact and
NetflowArtifact merges over the object heap, every input reference holds
exactly its original artifact value after the call, and every returned
reference is at or above the initial store length, hence distinct from
every input reference.  (The original claim's blanket "does not modify the
input artifacts" fails at the metadata set objects, which the seeding copy
shares with a metadata-bearing input and the update step mutates in place:
see the counterexample.) -/
theorem claim_C8_amended :
    (∀ (store store2 : List DNSObj) (σ σ2 : List (Finset String))
       (refs out : List Nat) (target : Option (List String)),
       (∀ r ∈ refs, r < store.length) →
       DNSRef.merge store σ refs target = some (store2, σ2, out) →
       (∀ r ∈ refs, store2[r]? = store[r]?) ∧
       (∀ r2 ∈ out, store.length ≤ r2 ∧ r2 ∉ refs)) ∧
    (∀ (store store2 : List NFObj) (σ σ2 : List (Finset String))
       (refs out : List Nat) (target : Option (List String)),
       (∀ r ∈ refs, r < store.length) →
       NFRef.merge store σ refs target = some (store2, σ2, out) →
       (∀ r ∈ refs, store2[r]? = store[r]?) ∧
       (∀ r2 ∈ out, store.length ≤ r2 ∧ r2 ∉ refs)) := by
  constructor
  · intro store store2 σ σ2 refs out target hvalid hm
    obtain ⟨h1, h3⟩ := refMerge2_frame hm
    refine ⟨fun r hr => h1 r (hvalid r hr), fun r2 hr2 =>
      ⟨h3 r2 hr2, fun hc => ?_⟩⟩
    exact absurd (hvalid r2 hc) (Nat.not_lt.mpr (h3 r2 hr2))
  · intro store store2 σ σ2 refs out target hvalid hm
    obtain ⟨h1, h3⟩ := refMerge2_frame hm
    refine ⟨fun r hr => h1 r (hvalid r hr), fun r2 hr2 =>
      ⟨h3 r2 hr2, fun hc => ?_⟩⟩
    exact absurd (hvalid r2 hc) (Nat.not_lt.mpr (h3 r2 hr2))

theorem claim_C8_amended_witness :
    ((∀ r ∈ ([0, 1] : List Nat), c8DnsRes.1[r]? = c8DnsStore[r]?) ∧
     (∀ r2 ∈ c8DnsRes.2.2, c8DnsStore.length ≤ r2 ∧
       r2 ∉ ([0, 1] : List Nat))) ∧
    ((∀ r ∈ ([0, 1] : List Nat), c8NfRes.1[r]? = c8Store[r]?) ∧
     (∀ r2 ∈ c8NfRes.2.2, c8Store.length ≤ r2 ∧
       r2 ∉ ([0, 1] : List Nat))) := by
  constructor
  · exact claim_C8_amended.1 c8DnsStore c8DnsRes.1 [] c8DnsRes.2.1 [0, 1]
      c8DnsRes.2.2 none (by decide) (by rfl)
  · exact claim_C8_amended.2 c8Store c8NfRes.1 c8Sets c8NfRes.2.1 [0, 1]
      c8NfRes.2.2 none (by decide) (by rfl)
